import Mathlib

/-!
# Verification of the Outline tunnel-config parsing pipeline

Shallow embedding of `client/go/outline/parse.go` (`doParseTunnelConfig` and
its request/response types).  The pipeline's external collaborators — the
YAML unmarshaller applied to arbitrary input, and the transport constructor
`NewClient` — are modelled as explicit function parameters, so every theorem
quantifies over their behaviour.  The YAML *serializer* (`yaml.Marshal`
applied to `legacyShadowsocksConfig` values and to `yaml.Node` transport
subtrees) and the JSON response serializer (`json.Marshal` applied to
`tunnelConfigJson`) are modelled concretely, since the claims are about the
text they produce.

The scalar-quoting model below follows gopkg.in/yaml.v3's emitter on the
value shapes this file produces: a scalar is emitted plain when that is
unambiguous, single-quoted when it begins with an indicator character, has a
leading/trailing space, contains `: ` or ` #`, or would read as a number or
boolean/null word, and double-quoted when it contains control characters.
The model quotes slightly more eagerly than yaml.v3 in some plain-safe
corners, which is always sound for YAML and does not affect any claim.
-/

namespace OutlineParse

/-- Control characters (including DEL): these force double-quoted style. -/
def isCtl (c : Char) : Bool := c.toNat < 32 || c.toNat == 127

/-- Lower-case hexadecimal digit for `n < 16`. -/
def hexDig (n : Nat) : Char :=
  if n < 10 then Char.ofNat (48 + n) else Char.ofNat (87 + n)

/-- Value of a lower-case hexadecimal digit character. -/
def hexVal (c : Char) : Option Nat :=
  if 48 ≤ c.toNat && c.toNat ≤ 57 then some (c.toNat - 48)
  else if 97 ≤ c.toNat && c.toNat ≤ 102 then some (c.toNat - 87)
  else none

/-- Escape one character for a double-quoted YAML scalar. -/
def dqEscChar (c : Char) : List Char :=
  if c = '"' then ['\\', '"']
  else if c = '\\' then ['\\', '\\']
  else if c = '\n' then ['\\', 'n']
  else if c = '\t' then ['\\', 't']
  else if c = '\r' then ['\\', 'r']
  else if isCtl c then ['\\', 'u', '0', '0', hexDig (c.toNat / 16), hexDig (c.toNat % 16)]
  else [c]

/-- Body of a double-quoted scalar (without the surrounding quotes). -/
def dqBody : List Char → List Char
  | [] => []
  | c :: cs => dqEscChar c ++ dqBody cs

/-- A double-quoted YAML scalar token. -/
def dqEncode (cs : List Char) : List Char := '"' :: (dqBody cs ++ ['"'])

/-- Decode the remainder of a double-quoted scalar token (opening quote
already consumed); the token must extend to the end of the input. -/
def dqDecodeRest : List Char → Option (List Char)
  | [] => none
  | c :: rest =>
    if c = '"' then (if rest.isEmpty then some [] else none)
    else if c = '\\' then
      match rest with
      | [] => none
      | e :: rest2 =>
        if e = 'n' then (fun l => '\n' :: l) <$> dqDecodeRest rest2
        else if e = 't' then (fun l => '\t' :: l) <$> dqDecodeRest rest2
        else if e = 'r' then (fun l => '\r' :: l) <$> dqDecodeRest rest2
        else if e = '"' then (fun l => '"' :: l) <$> dqDecodeRest rest2
        else if e = '\\' then (fun l => '\\' :: l) <$> dqDecodeRest rest2
        else if e = 'u' then
          match rest2 with
          | '0' :: '0' :: h1 :: h2 :: rest3 =>
            match hexVal h1, hexVal h2 with
            | some v1, some v2 => (fun l => Char.ofNat (16 * v1 + v2) :: l) <$> dqDecodeRest rest3
            | _, _ => none
          | _ => none
        else none
    else (fun l => c :: l) <$> dqDecodeRest rest

/-- Body of a single-quoted scalar: each `'` is doubled. -/
def sqBody : List Char → List Char
  | [] => []
  | c :: cs => if c = '\'' then '\'' :: '\'' :: sqBody cs else c :: sqBody cs

/-- A single-quoted YAML scalar token. -/
def sqEncode (cs : List Char) : List Char := '\'' :: (sqBody cs ++ ['\''])

/-- Decode the remainder of a single-quoted scalar token (opening quote
already consumed); the token must extend to the end of the input. -/
def sqDecodeRest : List Char → Option (List Char)
  | [] => none
  | c :: rest =>
    if c = '\'' then
      match rest with
      | [] => some []
      | e :: rest2 => if e = '\'' then (fun l => '\'' :: l) <$> sqDecodeRest rest2 else none
    else (fun l => c :: l) <$> sqDecodeRest rest

/-- Characters that cannot begin a plain YAML scalar. -/
def plainIndicatorChar (c : Char) : Bool :=
  c = '\'' || c = '"' || c = ' ' || c = '&' || c = '*' || c = '?' || c = '|' ||
  c = '-' || c = '<' || c = '>' || c = '=' || c = '!' || c = '%' || c = '@' ||
  c = ':' || c = ',' || c = '[' || c = ']' || c = '{' || c = '}' || c = '#' ||
  c = '`' || c = '~' || c = '+' || c.isDigit

/-- A `:` that ends the input or is followed by a space (would be read as a
key separator). -/
def hasBadColon : List Char → Bool
  | [] => false
  | c :: rest => (c = ':' && (rest.isEmpty || rest.head? = some ' ')) || hasBadColon rest

/-- A ` #` sequence (would start a comment). -/
def hasSpaceHash : List Char → Bool
  | [] => false
  | c :: rest => (c = ' ' && rest.head? = some '#') || hasSpaceHash rest

/-- Words that YAML would read as booleans or null when left plain. -/
def isSpecialPlainWord (cs : List Char) : Bool :=
  let l := cs.map Char.toLower
  l = "true".data || l = "false".data || l = "null".data || l = "yes".data ||
  l = "no".data || l = "on".data || l = "off".data

/-- The scalar must be quoted (single-quoted style suffices). -/
def needsSQ (cs : List Char) : Bool :=
  match cs with
  | [] => true
  | c :: _ =>
    plainIndicatorChar c || cs.getLast? = some ' ' || hasBadColon cs ||
    hasSpaceHash cs || isSpecialPlainWord cs

/-- The scalar must be double-quoted (contains control characters). -/
def needsDQ (cs : List Char) : Bool := cs.any isCtl

/-- Emit a YAML scalar token for the given string contents. -/
def yamlEncodeScalarChars (cs : List Char) : List Char :=
  if needsDQ cs then dqEncode cs
  else if needsSQ cs then sqEncode cs
  else cs

/-- Read back a YAML scalar token (the token spans the whole input). -/
def yamlDecodeScalarChars : List Char → Option (List Char)
  | [] => some []
  | c :: rest =>
    if c = '"' then dqDecodeRest rest
    else if c = '\'' then sqDecodeRest rest
    else some (c :: rest)

/-- Decimal digits of `n`, most significant first (fuel-driven so that the
kernel can evaluate it; `natDigits` supplies sufficient fuel). -/
def natDigitsAux : Nat → Nat → List Char
  | 0, _ => []
  | fuel + 1, n =>
    if n < 10 then [Char.ofNat (48 + n)]
    else natDigitsAux fuel (n / 10) ++ [Char.ofNat (48 + n % 10)]

/-- Unsigned decimal representation of `n`, as emitted by the YAML
serializer for the unquoted `server_port` field. -/
def natDigits (n : Nat) : List Char := natDigitsAux (n + 1) n

def natToString (n : Nat) : String := ⟨natDigits n⟩

/-- Accumulating decimal reader. -/
def parseNatAux : Nat → List Char → Option Nat
  | acc, [] => some acc
  | acc, c :: rest =>
    if c.isDigit then parseNatAux (10 * acc + (c.toNat - 48)) rest else none

/-- Read a non-empty run of decimal digits as a `Nat`. -/
def parseNatChars (cs : List Char) : Option Nat :=
  if cs.isEmpty then none else parseNatAux 0 cs

/-!
## The legacy flat config (parse.go lines 34–40)

```go
type legacyShadowsocksConfig struct {
    Server     string `yaml:"server"`
    ServerPort uint   `yaml:"server_port"`
    Method     string `yaml:"method"`
    Password   string `yaml:"password"`
    Prefix     string `yaml:"prefix"`
}
```
`ServerPort` is a Go `uint`; its (range-checked) value is modelled as `Nat`.
-/

structure legacyShadowsocksConfig where
  Server : String
  ServerPort : Nat
  Method : String
  Password : String
  Prefix : String
deriving DecidableEq

/-- String form of one scalar field as the YAML serializer emits it. -/
def yamlEncodeScalar (s : String) : String := ⟨yamlEncodeScalarChars s.data⟩

/-- `yaml.Marshal` of a `legacyShadowsocksConfig` value: the five fields in
struct order, one `key: value` line each, nothing omitted. -/
def yamlMarshalLegacy (c : legacyShadowsocksConfig) : String :=
  "server: " ++ yamlEncodeScalar c.Server ++ "\n" ++
  "server_port: " ++ natToString c.ServerPort ++ "\n" ++
  "method: " ++ yamlEncodeScalar c.Method ++ "\n" ++
  "password: " ++ yamlEncodeScalar c.Password ++ "\n" ++
  "prefix: " ++ yamlEncodeScalar c.Prefix ++ "\n"

/-- Strip an exact prefix. -/
def dropPrefixChars : List Char → List Char → Option (List Char)
  | [], cs => some cs
  | _ :: _, [] => none
  | p :: ps, c :: cs => if c = p then dropPrefixChars ps cs else none

/-- Split at the first newline; fails if there is none. -/
def takeLineChars : List Char → Option (List Char × List Char)
  | [] => none
  | c :: cs =>
    if c = '\n' then some ([], cs)
    else (fun pr => (c :: pr.1, pr.2)) <$> takeLineChars cs

/-- Consume one `key: value` line of the canonical legacy text. -/
def parseLegacyField (key : String) (cs : List Char) : Option (List Char × List Char) :=
  (dropPrefixChars key.data cs).bind takeLineChars

/-- `yaml.Unmarshal` into `legacyShadowsocksConfig`, restricted to the
canonical five-line text that `yamlMarshalLegacy` emits (the round-trip
claims only evaluate the second parse on such canonical text). -/
def yamlParseLegacyCanonical (s : String) : Option legacyShadowsocksConfig :=
  match parseLegacyField "server: " s.data with
  | none => none
  | some (t1, r1) =>
    match yamlDecodeScalarChars t1 with
    | none => none
    | some v1 =>
      match parseLegacyField "server_port: " r1 with
      | none => none
      | some (t2, r2) =>
        match parseNatChars t2 with
        | none => none
        | some port =>
          match parseLegacyField "method: " r2 with
          | none => none
          | some (t3, r3) =>
            match yamlDecodeScalarChars t3 with
            | none => none
            | some v3 =>
              match parseLegacyField "password: " r3 with
              | none => none
              | some (t4, r4) =>
                match yamlDecodeScalarChars t4 with
                | none => none
                | some v4 =>
                  match parseLegacyField "prefix: " r4 with
                  | none => none
                  | some (t5, r5) =>
                    match yamlDecodeScalarChars t5 with
                    | none => none
                    | some v5 =>
                      if r5.isEmpty then some ⟨⟨v1⟩, port, ⟨v3⟩, ⟨v4⟩, ⟨v5⟩⟩ else none

/-- `s` contains the given fragments, in order, possibly with gaps. -/
def containsInOrderChars : List (List Char) → List Char → Prop
  | [], _ => True
  | k :: ks, s => ∃ pre post, s = pre ++ k ++ post ∧ containsInOrderChars ks post

/-!
## `yaml.Node` transport subtrees (parse.go lines 27 and 100–102)

The `transport` field of `parseTunnelConfigRequest` is an opaque
`yaml.Node`.  The model covers the fragment the pipeline's claims exercise:
the zero node (key absent), scalar and mapping nodes optionally carrying an
anchor, and alias references.  Sequence nodes and mapping keys that would
themselves need quoting are outside the model's marshalling domain (the
marshaller reports an error for them, and no claim depends on them).
-/

mutual
inductive YNode where
  | zero : YNode
  | scalar : Option String → String → YNode
  | mapping : Option String → YEntries → YNode
  | aliasNode : String → YNode
inductive YEntries where
  | nil : YEntries
  | cons : String → YNode → YEntries → YEntries
end

/-- `yaml.Node.IsZero` (true exactly for the zero node, i.e. the field was
never set by unmarshalling). -/
def YNode.isZero : YNode → Bool
  | .zero => true
  | _ => false

/-- Alias-free denotation of a node: what any YAML parser reads back. -/
inductive YamlValue where
  | scalar : String → YamlValue
  | mapping : List (String × YamlValue) → YamlValue

mutual
/-- The value of a node, resolving aliases against the anchors defined
earlier in document order (an anchor becomes visible after its node). -/
def resolveNode : List (String × YamlValue) → YNode →
    Except String (List (String × YamlValue) × YamlValue)
  | _, .zero => .error "cannot marshal zero node"
  | env, .scalar none s => .ok (env, .scalar s)
  | env, .scalar (some a) s => .ok ((a, YamlValue.scalar s) :: env, .scalar s)
  | env, .mapping anc es =>
    match resolveEntries env es with
    | .error e => .error e
    | .ok (env1, ves) =>
      match anc with
      | none => .ok (env1, .mapping ves)
      | some a => .ok ((a, YamlValue.mapping ves) :: env1, .mapping ves)
  | env, .aliasNode n =>
    match env.lookup n with
    | some v => .ok (env, v)
    | none => .error "unknown anchor"

def resolveEntries : List (String × YamlValue) → YEntries →
    Except String (List (String × YamlValue) × List (String × YamlValue))
  | env, .nil => .ok (env, [])
  | env, .cons k v rest =>
    match resolveNode env v with
    | .error e => .error e
    | .ok (env1, vv) =>
      match resolveEntries env1 rest with
      | .error e => .error e
      | .ok (env2, ves) => .ok (env2, (k, vv) :: ves)
end

/-- The root value of a transport subtree. -/
def resolveTopNode (n : YNode) : Except String YamlValue :=
  match resolveNode [] n with
  | .error e => .error e
  | .ok (_, v) => .ok v

/-- Anchor names the model marshals (yaml anchor names: no spaces). -/
def validAnchorChars (a : List Char) : Bool :=
  !a.isEmpty && a.all (fun c => c.isAlphanum || c = '_' || c = '-')

/-- Mapping keys the model marshals without quoting. -/
def validPlainKey (k : String) : Bool :=
  !needsDQ k.data && !needsSQ k.data && !k.data.contains ':'

mutual
/-- Marshal one `key: value` entry (key already rendered as `kTok`) into
output lines `(indent, content)`, threading the set of emitted anchors. -/
def marshalVal : List String → Nat → List Char → YNode →
    Except String (List String × List (Nat × List Char))
  | _, _, _, .zero => .error "cannot marshal zero node"
  | anchors, ind, kTok, .scalar none s =>
    .ok (anchors, [(ind, kTok ++ ':' :: ' ' :: yamlEncodeScalarChars s.data)])
  | anchors, ind, kTok, .scalar (some a) s =>
    if validAnchorChars a.data then
      .ok (a :: anchors,
        [(ind, kTok ++ ':' :: ' ' :: '&' :: (a.data ++ ' ' :: yamlEncodeScalarChars s.data))])
    else .error "invalid anchor name"
  | anchors, ind, kTok, .mapping none .nil =>
    .ok (anchors, [(ind, kTok ++ ':' :: ' ' :: ['{', '}'])])
  | anchors, ind, kTok, .mapping none (.cons k1 v1 rest) =>
    match marshalEntries anchors (ind + 4) (.cons k1 v1 rest) with
    | .error e => .error e
    | .ok (anchors1, lines) => .ok (anchors1, (ind, kTok ++ [':']) :: lines)
  | anchors, ind, kTok, .mapping (some a) .nil =>
    if validAnchorChars a.data then
      .ok (a :: anchors, [(ind, kTok ++ ':' :: ' ' :: '&' :: (a.data ++ ' ' :: ['{', '}']))])
    else .error "invalid anchor name"
  | anchors, ind, kTok, .mapping (some a) (.cons k1 v1 rest) =>
    if validAnchorChars a.data then
      match marshalEntries anchors (ind + 4) (.cons k1 v1 rest) with
      | .error e => .error e
      | .ok (anchors1, lines) =>
        .ok (a :: anchors1, (ind, kTok ++ ':' :: ' ' :: '&' :: a.data) :: lines)
    else .error "invalid anchor name"
  | anchors, ind, kTok, .aliasNode n =>
    if anchors.contains n && validAnchorChars n.data then
      .ok (anchors, [(ind, kTok ++ ':' :: ' ' :: '*' :: n.data)])
    else .error "unknown anchor"

/-- Marshal a run of mapping entries at one indentation level. -/
def marshalEntries : List String → Nat → YEntries →
    Except String (List String × List (Nat × List Char))
  | anchors, _, .nil => .ok (anchors, [])
  | anchors, ind, .cons k v rest =>
    if validPlainKey k then
      match marshalVal anchors ind k.data v with
      | .error e => .error e
      | .ok (anchors1, lines1) =>
        match marshalEntries anchors1 ind rest with
        | .error e => .error e
        | .ok (anchors2, lines2) => .ok (anchors2, lines1 ++ lines2)
    else .error "unsupported key"
end

/-- Marshal the root node into output lines. -/
def marshalTopLines : YNode → Except String (List (Nat × List Char))
  | .zero => .error "cannot marshal zero node"
  | .scalar none s => .ok [(0, yamlEncodeScalarChars s.data)]
  | .scalar (some a) s =>
    if validAnchorChars a.data then
      .ok [(0, '&' :: (a.data ++ ' ' :: yamlEncodeScalarChars s.data))]
    else .error "invalid anchor name"
  | .mapping none .nil => .ok [(0, ['{', '}'])]
  | .mapping none (.cons k v rest) =>
    match marshalEntries [] 0 (.cons k v rest) with
    | .error e => .error e
    | .ok (_, lines) => .ok lines
  | .mapping (some _) _ => .error "unsupported root anchor"
  | .aliasNode _ => .error "unknown anchor"

def spacesChars (n : Nat) : List Char := List.replicate n ' '

/-- Render output lines as text: `indent spaces ++ content ++ "\n"` each. -/
def renderLinesChars : List (Nat × List Char) → List Char
  | [] => []
  | (i, c) :: rest => spacesChars i ++ (c ++ '\n' :: renderLinesChars rest)

/-- `yaml.Marshal` of the `transport` subtree (parse.go line 101). -/
def yamlMarshalNode (n : YNode) : Except String String :=
  match marshalTopLines n with
  | .error e => .error e
  | .ok lines => .ok ⟨renderLinesChars lines⟩

/-!
## Re-parsing canonical node text

A YAML reader restricted to the canonical text `yamlMarshalNode` emits:
split into lines, read the indentation, and rebuild the (alias-resolved)
value.  This models what any YAML parser yields on that text.
-/

/-- Split text into newline-terminated lines (fails when the last line is
unterminated; `acc` holds the current line reversed). -/
def splitLinesAcc : List Char → List Char → Option (List (List Char))
  | [], acc => if acc.isEmpty then some [] else none
  | c :: rest, acc =>
    if c = '\n' then (fun ls => acc.reverse :: ls) <$> splitLinesAcc rest []
    else splitLinesAcc rest (c :: acc)

def countSpaces : List Char → Nat
  | [] => 0
  | c :: rest => if c = ' ' then countSpaces rest + 1 else 0

/-- Read one line as `(indentation, content)`; blank lines are rejected. -/
def toIndentLine (cs : List Char) : Option (Nat × List Char) :=
  let i := countSpaces cs
  let c := cs.drop i
  if c.isEmpty then none else some (i, c)

def toIndentLines : List (List Char) → Option (List (Nat × List Char))
  | [] => some []
  | c :: rest =>
    match toIndentLine c, toIndentLines rest with
    | some l, some ls => some (l :: ls)
    | _, _ => none

def splitLinesChars (cs : List Char) : Option (List (Nat × List Char)) :=
  (splitLinesAcc cs []).bind toIndentLines

/-- Split a mapping line at the first colon: key token and remainder. -/
def splitKeyChars : List Char → Option (List Char × List Char)
  | [] => none
  | c :: rest =>
    if c = ':' then some ([], rest)
    else (fun pr => (c :: pr.1, pr.2)) <$> splitKeyChars rest

/-- Split at the first space, if any. -/
def splitAtSpace : List Char → List Char × Option (List Char)
  | [] => ([], none)
  | c :: rest =>
    if c = ' ' then ([], some rest)
    else
      let pr := splitAtSpace rest
      (c :: pr.1, pr.2)

/-- What follows a mapping line's colon. -/
inductive VTok where
  | child : Option String → VTok
  | emptyMap : Option String → VTok
  | scalarTok : Option String → List Char → VTok
  | aliasTok : String → VTok

def classifyAfter : List Char → Option VTok
  | [] => some (.child none)
  | c :: tail =>
    if c = ' ' then
      match tail with
      | [] => none
      | d :: tl2 =>
        if d = '&' then
          match splitAtSpace tl2 with
          | (anc, none) => some (.child (some ⟨anc⟩))
          | (anc, some tok) =>
            if tok = ['{', '}'] then some (.emptyMap (some ⟨anc⟩))
            else some (.scalarTok (some ⟨anc⟩) tok)
        else if d = '*' then some (.aliasTok ⟨tl2⟩)
        else if d :: tl2 = ['{', '}'] then some (.emptyMap none)
        else some (.scalarTok none (d :: tl2))
    else none

/-- Parse a run of mapping entries at indentation `ind`, threading the
anchor environment; returns the entries, the final environment and the
unconsumed lines (the first line at a shallower indentation).  Fuel-driven;
each step consumes at least one line, so `lines.length + 1` fuel always
suffices. -/
def parseEntriesF : Nat → List (String × YamlValue) → Nat → List (Nat × List Char) →
    Except String (List (String × YamlValue) × List (String × YamlValue) × List (Nat × List Char))
  | 0, _, _, _ => .error "out of fuel"
  | _ + 1, env, _, [] => .ok ([], env, [])
  | fuel + 1, env, ind, (i, cs) :: rest =>
    if i < ind then .ok ([], env, (i, cs) :: rest)
    else if i = ind then
      match splitKeyChars cs with
      | none => .error "expected mapping line"
      | some (kTok, after) =>
        match classifyAfter after with
        | none => .error "malformed line"
        | some (.scalarTok anc tok) =>
          match yamlDecodeScalarChars tok with
          | none => .error "malformed scalar"
          | some v =>
            let vv := YamlValue.scalar ⟨v⟩
            let env1 := match anc with | none => env | some a => (a, vv) :: env
            match parseEntriesF fuel env1 ind rest with
            | .error e => .error e
            | .ok (es, env2, rem) => .ok ((⟨kTok⟩, vv) :: es, env2, rem)
        | some (.aliasTok n) =>
          match env.lookup n with
          | none => .error "unknown anchor"
          | some vv =>
            match parseEntriesF fuel env ind rest with
            | .error e => .error e
            | .ok (es, env2, rem) => .ok ((⟨kTok⟩, vv) :: es, env2, rem)
        | some (.emptyMap anc) =>
          let vv := YamlValue.mapping []
          let env1 := match anc with | none => env | some a => (a, vv) :: env
          match parseEntriesF fuel env1 ind rest with
          | .error e => .error e
          | .ok (es, env2, rem) => .ok ((⟨kTok⟩, vv) :: es, env2, rem)
        | some (.child anc) =>
          match parseEntriesF fuel env (ind + 4) rest with
          | .error e => .error e
          | .ok (ces, cenv, rem1) =>
            let vv := YamlValue.mapping ces
            let env1 := match anc with | none => cenv | some a => (a, vv) :: cenv
            match parseEntriesF fuel env1 ind rem1 with
            | .error e => .error e
            | .ok (es, env2, rem) => .ok ((⟨kTok⟩, vv) :: es, env2, rem)
    else .error "unexpected indentation"

/-- A single top line that is a scalar document rather than a one-entry
mapping (keys are plain, so quoted/anchored/alias heads and plain text
without a key separator are scalars). -/
def isTopScalarLine (cs : List Char) : Bool :=
  match cs with
  | [] => false
  | c :: _ => c = '"' || c = '\'' || c = '&' || c = '*' || !hasBadColon cs

/-- Read a one-line scalar document (possibly anchored). -/
def parseTopToken (cs : List Char) : Except String YamlValue :=
  match cs with
  | '&' :: tl =>
    match splitAtSpace tl with
    | (_, none) => .error "malformed document"
    | (_, some tok) =>
      if tok = ['{', '}'] then .ok (.mapping [])
      else
        match yamlDecodeScalarChars tok with
        | some v => .ok (.scalar ⟨v⟩)
        | none => .error "malformed scalar"
  | '*' :: _ => .error "unknown anchor"
  | _ =>
    if cs = ['{', '}'] then .ok (.mapping [])
    else
      match yamlDecodeScalarChars cs with
      | some v => .ok (.scalar ⟨v⟩)
      | none => .error "malformed scalar"

def parseTopMapping (lines : List (Nat × List Char)) : Except String YamlValue :=
  match parseEntriesF (lines.length + 1) [] 0 lines with
  | .ok (es, _, []) => .ok (.mapping es)
  | .ok _ => .error "trailing lines"
  | .error e => .error e

def parseTopLines (lines : List (Nat × List Char)) : Except String YamlValue :=
  match lines with
  | [(0, cs)] => if isTopScalarLine cs then parseTopToken cs else parseTopMapping [(0, cs)]
  | _ => parseTopMapping lines

/-- Re-parse canonical transport text into its value. -/
def yamlParseTop (s : String) : Except String YamlValue :=
  match splitLinesChars s.data with
  | none => .error "malformed document"
  | some lines => parseTopLines lines

/-!
## Platform errors, request and response types
-/

/-- Modelled from the spec: the `platerrors` error-code taxonomy (that
package is outside the shown sources).  The spec names the codes
`InvalidConfig`, `ProviderError` and `InternalError`, plus codes
originating from the transport-construction collaborator, which are
propagated unchanged. -/
inductive ErrorCode where
  | invalidConfig : ErrorCode
  | providerError : ErrorCode
  | internalError : ErrorCode
  | collaborator : String → ErrorCode
deriving DecidableEq

/-- The wire string of a code; collaborator-originated codes carry their
own string. -/
def ErrorCode.str : ErrorCode → String
  | .invalidConfig => "InvalidConfig"
  | .providerError => "ProviderError"
  | .internalError => "InternalError"
  | .collaborator s => s

/-- `platerrors.PlatformError`; the `details` map (Go `map[string]any`) is
modelled as an optional association list, `none` for the Go nil map. -/
structure PlatformError where
  code : ErrorCode
  message : String
  details : Option (List (String × String)) := none
deriving DecidableEq

/-- `InvokeMethodResult`: a `Value` string (zero value `""`) and an
optional `Error` pointer. -/
structure InvokeMethodResult where
  value : String := ""
  error : Option PlatformError := none
deriving DecidableEq

/-- The anonymous `Error` struct of `parseTunnelConfigRequest`
(parse.go lines 28–31). -/
structure ProviderErrorDetail where
  Message : String
  Details : String
deriving DecidableEq

/-- `parseTunnelConfigRequest` (parse.go lines 26–32): `Error` is a
pointer, `none` when the document has no (non-null) top-level `error`
mapping; `Transport` is the zero node when the document has no top-level
`transport` key. -/
structure parseTunnelConfigRequest where
  Transport : YNode
  Error : Option ProviderErrorDetail

/-- The two first-hop addresses a constructed client exposes
(`result.Client.sd.ConnectionProviderInfo.FirstHop` and
`result.Client.pl.ConnectionProviderInfo.FirstHop`). -/
structure ClientInfo where
  streamFirstHop : String
  packetFirstHop : String
deriving DecidableEq

/-- `tunnelConfigJson` (parse.go lines 43–46); must match config.ts. -/
structure tunnelConfigJson where
  firstHop : String
  transport : String
deriving DecidableEq

/-- Go `encoding/json` string escaping (default HTML-escaping encoder), as
applied to the response fields. -/
def jsonQuoteChar (c : Char) : List Char :=
  if c = '"' then ['\\', '"']
  else if c = '\\' then ['\\', '\\']
  else if c = '\n' then ['\\', 'n']
  else if c = '\r' then ['\\', 'r']
  else if c = '\t' then ['\\', 't']
  else if c.toNat < 32 then '\\' :: 'u' :: '0' :: '0' :: hexDig (c.toNat / 16) :: [hexDig (c.toNat % 16)]
  else if c = '<' then '\\' :: "u003c".data
  else if c = '>' then '\\' :: "u003e".data
  else if c = '&' then '\\' :: "u0026".data
  else if c.toNat = 8232 then '\\' :: "u2028".data
  else if c.toNat = 8233 then '\\' :: "u2029".data
  else [c]

def jsonQuoteBody : List Char → List Char
  | [] => []
  | c :: cs => jsonQuoteChar c ++ jsonQuoteBody cs

def jsonQuote (s : String) : String := ⟨'"' :: (jsonQuoteBody s.data ++ ['"'])⟩

/-- `json.Marshal` of `tunnelConfigJson`: the two string fields in struct
order.  For a struct of two plain strings Go's marshaller cannot fail, so
the `InternalError` branch of parse.go lines 127–134 is unreachable and the
model makes serialization total. -/
def jsonMarshalTunnelConfig (t : tunnelConfigJson) : String :=
  "\x7b\"firstHop\":" ++ jsonQuote t.firstHop ++ ",\"transport\":" ++ jsonQuote t.transport ++ "\x7d"

/-!
## The pipeline (parse.go lines 48–139)
-/

/-- The whitespace class `strings.TrimSpace` trims (`unicode.IsSpace`):
the ASCII class plus NEL and NBSP.  (Other Unicode space runes also
qualify in Go; none appears in any claim.) -/
def isSpaceGo (c : Char) : Bool :=
  c = ' ' || c = '\t' || c = '\n' || c = '\u000B' || c = '\u000C' || c = '\r' ||
  c = '\u0085' || c = '\u00A0'

def dropLeadingSpaces : List Char → List Char
  | [] => []
  | c :: cs => if isSpaceGo c then dropLeadingSpaces cs else c :: cs

/-- `strings.TrimSpace`. -/
def goTrimSpace (s : String) : String :=
  ⟨(dropLeadingSpaces (dropLeadingSpaces s.data).reverse).reverse⟩

/-- `strings.ReplaceAll(input, "\\/", "/")`: the pattern is two characters
and replacements do not overlap, so a left-to-right scan is exact. -/
def unescapeSlashes : List Char → List Char
  | [] => []
  | '\\' :: '/' :: rest => '/' :: unescapeSlashes rest
  | c :: rest => c :: unescapeSlashes rest

def goUnescapeSlashes (s : String) : String := ⟨unescapeSlashes s.data⟩

/-- `strings.HasPrefix`. -/
def goHasPrefix (s pre : String) : Bool := pre.data.isPrefixOf s.data

/-- Lines 52–53: trim surrounding whitespace, then unescape `\/`. -/
def normalizeInput (input : String) : String := goUnescapeSlashes (goTrimSpace input)

/-- The pipeline's external collaborators: `yaml.Unmarshal` applied to the
raw input text (into each of the two target types), and `NewClient`.
Theorems quantify over their behaviour. -/
structure Collaborators where
  unmarshalRequest : String → Except String parseTunnelConfigRequest
  unmarshalLegacy : String → Except String legacyShadowsocksConfig
  newClient : String → Except PlatformError ClientInfo

/-- Lines 114–138: construct the client from the canonical transport text,
derive `firstHop` (set only when the stream and packet first hops agree),
and serialize the response. -/
def finishWithClient (co : Collaborators) (transportConfigText : String) : InvokeMethodResult :=
  match co.newClient transportConfigText with
  | .error pe => { error := some pe }
  | .ok client =>
    let response : tunnelConfigJson :=
      { firstHop :=
          if client.streamFirstHop = client.packetFirstHop then client.streamFirstHop else ""
        transport := transportConfigText }
    { value := jsonMarshalTunnelConfig response }

/-- `doParseTunnelConfig` (parse.go lines 48–139).  The legacy
`yaml.Marshal` cannot fail for the plain five-field struct, so the model
applies it directly; the shared `failed normalize config` error check
remains live for the transport-subtree marshal. -/
def doParseTunnelConfig (co : Collaborators) (input : String) : InvokeMethodResult :=
  let inp := normalizeInput input
  if goHasPrefix inp "ss://" then
    finishWithClient co inp
  else
    match co.unmarshalRequest inp with
    | .error e =>
      { error := some { code := .invalidConfig, message := "failed to parse: " ++ e } }
    | .ok tunnelConfig =>
      match tunnelConfig.Error with
      | some provErr =>
        { error := some { code := .providerError,
                          message := provErr.Message,
                          details := if provErr.Details = "" then none
                                     else some [("details", provErr.Details)] } }
      | none =>
        if tunnelConfig.Transport.isZero then
          match co.unmarshalLegacy inp with
          | .error e =>
            { error := some { code := .invalidConfig, message := "failed to parse: " ++ e } }
          | .ok legacyConfig => finishWithClient co (yamlMarshalLegacy legacyConfig)
        else
          match yamlMarshalNode tunnelConfig.Transport with
          | .error e =>
            { error := some { code := .invalidConfig, message := "failed normalize config: " ++ e } }
          | .ok text => finishWithClient co text

/-- The canonical transport text the pipeline hands to `NewClient`, when
control reaches that call (`none` when an earlier branch returns an
error). -/
def canonicalTransportText (co : Collaborators) (input : String) : Option String :=
  let inp := normalizeInput input
  if goHasPrefix inp "ss://" then some inp
  else
    match co.unmarshalRequest inp with
    | .error _ => none
    | .ok tunnelConfig =>
      match tunnelConfig.Error with
      | some _ => none
      | none =>
        if tunnelConfig.Transport.isZero then
          match co.unmarshalLegacy inp with
          | .error _ => none
          | .ok legacyConfig => some (yamlMarshalLegacy legacyConfig)
        else
          match yamlMarshalNode tunnelConfig.Transport with
          | .error _ => none
          | .ok text => some text

/-- Collaborators whose behaviour is constant in the input; used to
instantiate theorems at concrete points. -/
def constCollaborators (r : Except String parseTunnelConfigRequest)
    (l : Except String legacyShadowsocksConfig)
    (c : Except PlatformError ClientInfo) : Collaborators :=
  { unmarshalRequest := fun _ => r, unmarshalLegacy := fun _ => l, newClient := fun _ => c }

/-- The transport subtree of the Go test vector that reuses an anchored
subtree through an alias (`tcp: &shared … / udp: *shared`,
parse_test.go lines 24–39). -/
def sharedAliasTransport : YNode :=
  .mapping none (.cons "tcp" (.mapping (some "shared")
    (.cons "endpoint" (.scalar none "example.com:80") .nil))
    (.cons "udp" (.aliasNode "shared") .nil))

/-- Its canonical serialization. -/
def sharedAliasText : String := "tcp: &shared\n    endpoint: example.com:80\nudp: *shared\n"

/-- Rendered-line well-formedness: non-empty content that neither starts
with a space nor contains a newline (so rendering and re-splitting lines is
lossless). -/
def goodLine : Nat × List Char → Prop
  | (_, c) => c ≠ [] ∧ c.head? ≠ some ' ' ∧ '\n' ∉ c

def goodLines (lines : List (Nat × List Char)) : Prop := ∀ l ∈ lines, goodLine l

/-- The first unconsumed line (if any) sits strictly left of column `ind`. -/
def firstBelow (ind : Nat) : List (Nat × List Char) → Prop
  | [] => True
  | (i, _) :: _ => i < ind

/-!
## Theorems

First, facts shared by several claims: the shape of the two
`finishWithClient` outcomes, and non-emptiness of the serialized response.
-/

theorem append_ne_empty_left (s t : String) (h : s.data ≠ []) : s ++ t ≠ "" := by
  intro he
  have hd := congrArg String.data he
  rw [String.data_append, show ("" : String).data = [] from rfl] at hd
  exact h (List.append_eq_nil.mp hd).1

theorem finishWithClient_cases (co : Collaborators) (t : String) :
    (∃ pe, co.newClient t = .error pe ∧
      finishWithClient co t = { value := "", error := some pe }) ∨
    (∃ info, co.newClient t = .ok info ∧
      finishWithClient co t =
        { value := jsonMarshalTunnelConfig
            { firstHop := if info.streamFirstHop = info.packetFirstHop
                          then info.streamFirstHop else ""
              transport := t }
          error := none }) := by
  cases h : co.newClient t with
  | error pe => exact Or.inl ⟨pe, rfl, by simp [finishWithClient, h]⟩
  | ok info => exact Or.inr ⟨info, rfl, by simp [finishWithClient, h]⟩

theorem jsonMarshalTunnelConfig_ne_empty (t : tunnelConfigJson) :
    jsonMarshalTunnelConfig t ≠ "" := by
  intro h
  have hd := congrArg String.data h
  simp only [jsonMarshalTunnelConfig, String.data_append] at hd
  simp only [show ("" : String).data = [] from rfl, List.append_eq_nil] at hd
  have : ("\x7b\"firstHop\":" : String).data ≠ [] := by decide
  exact this hd.1.1.1.1

theorem finishWithClient_exactly_one (co : Collaborators) (t : String) :
    ((finishWithClient co t).error = none ∧ (finishWithClient co t).value ≠ "") ∨
    ((finishWithClient co t).error ≠ none ∧ (finishWithClient co t).value = "") := by
  rcases finishWithClient_cases co t with ⟨pe, _, heq⟩ | ⟨info, _, heq⟩
  · rw [heq]; exact Or.inr ⟨by simp, rfl⟩
  · rw [heq]; exact Or.inl ⟨rfl, jsonMarshalTunnelConfig_ne_empty _⟩

/-!
Branch equations of `doParseTunnelConfig`: one lemma per terminal branch of
the Go function's control flow.
-/

theorem doParse_uri (co : Collaborators) (input : String)
    (hss : goHasPrefix (normalizeInput input) "ss://" = true) :
    doParseTunnelConfig co input = finishWithClient co (normalizeInput input) := by
  simp [doParseTunnelConfig, hss]

theorem doParse_unmarshal_error (co : Collaborators) (input : String) (e : String)
    (hss : goHasPrefix (normalizeInput input) "ss://" = false)
    (hreq : co.unmarshalRequest (normalizeInput input) = .error e) :
    doParseTunnelConfig co input =
      { value := "",
        error := some { code := .invalidConfig, message := "failed to parse: " ++ e,
                        details := none } } := by
  simp [doParseTunnelConfig, hss, hreq]

theorem doParse_provider (co : Collaborators) (input : String)
    (req : parseTunnelConfigRequest) (pe : ProviderErrorDetail)
    (hss : goHasPrefix (normalizeInput input) "ss://" = false)
    (hreq : co.unmarshalRequest (normalizeInput input) = .ok req)
    (herr : req.Error = some pe) :
    doParseTunnelConfig co input =
      { value := "",
        error := some { code := .providerError, message := pe.Message,
                        details := if pe.Details = "" then none
                                   else some [("details", pe.Details)] } } := by
  simp [doParseTunnelConfig, hss, hreq, herr]

theorem doParse_legacy_unmarshal_error (co : Collaborators) (input : String)
    (req : parseTunnelConfigRequest) (e : String)
    (hss : goHasPrefix (normalizeInput input) "ss://" = false)
    (hreq : co.unmarshalRequest (normalizeInput input) = .ok req)
    (herr : req.Error = none) (hz : req.Transport.isZero = true)
    (hleg : co.unmarshalLegacy (normalizeInput input) = .error e) :
    doParseTunnelConfig co input =
      { value := "",
        error := some { code := .invalidConfig, message := "failed to parse: " ++ e,
                        details := none } } := by
  simp [doParseTunnelConfig, hss, hreq, herr, hz, hleg]

theorem doParse_legacy_ok (co : Collaborators) (input : String)
    (req : parseTunnelConfigRequest) (lc : legacyShadowsocksConfig)
    (hss : goHasPrefix (normalizeInput input) "ss://" = false)
    (hreq : co.unmarshalRequest (normalizeInput input) = .ok req)
    (herr : req.Error = none) (hz : req.Transport.isZero = true)
    (hleg : co.unmarshalLegacy (normalizeInput input) = .ok lc) :
    doParseTunnelConfig co input = finishWithClient co (yamlMarshalLegacy lc) := by
  simp [doParseTunnelConfig, hss, hreq, herr, hz, hleg]

theorem doParse_node_error (co : Collaborators) (input : String)
    (req : parseTunnelConfigRequest) (e : String)
    (hss : goHasPrefix (normalizeInput input) "ss://" = false)
    (hreq : co.unmarshalRequest (normalizeInput input) = .ok req)
    (herr : req.Error = none) (hz : req.Transport.isZero = false)
    (hm : yamlMarshalNode req.Transport = .error e) :
    doParseTunnelConfig co input =
      { value := "",
        error := some { code := .invalidConfig, message := "failed normalize config: " ++ e,
                        details := none } } := by
  simp [doParseTunnelConfig, hss, hreq, herr, hz, hm]

theorem doParse_node_ok (co : Collaborators) (input : String)
    (req : parseTunnelConfigRequest) (text : String)
    (hss : goHasPrefix (normalizeInput input) "ss://" = false)
    (hreq : co.unmarshalRequest (normalizeInput input) = .ok req)
    (herr : req.Error = none) (hz : req.Transport.isZero = false)
    (hm : yamlMarshalNode req.Transport = .ok text) :
    doParseTunnelConfig co input = finishWithClient co text := by
  simp [doParseTunnelConfig, hss, hreq, herr, hz, hm]

/-- C9: on every input and for every behaviour of the collaborators, the
result of `doParseTunnelConfig` carries exactly one of a success value or a
`PlatformError`: error paths leave the value at its zero value `""`, and
the success path always produces a non-empty serialized response. -/
theorem C9_exactly_one_outcome (co : Collaborators) (input : String) :
    ((doParseTunnelConfig co input).error = none ∧ (doParseTunnelConfig co input).value ≠ "") ∨
    ((doParseTunnelConfig co input).error ≠ none ∧ (doParseTunnelConfig co input).value = "") := by
  cases hss : goHasPrefix (normalizeInput input) "ss://" with
  | true => rw [doParse_uri co input hss]; exact finishWithClient_exactly_one co _
  | false =>
    cases hreq : co.unmarshalRequest (normalizeInput input) with
    | error e =>
      rw [doParse_unmarshal_error co input e hss hreq]
      exact Or.inr ⟨by simp, rfl⟩
    | ok req =>
      cases herr : req.Error with
      | some pe =>
        rw [doParse_provider co input req pe hss hreq herr]
        exact Or.inr ⟨by simp, rfl⟩
      | none =>
        cases hz : req.Transport.isZero with
        | true =>
          cases hleg : co.unmarshalLegacy (normalizeInput input) with
          | error e =>
            rw [doParse_legacy_unmarshal_error co input req e hss hreq herr hz hleg]
            exact Or.inr ⟨by simp, rfl⟩
          | ok lc =>
            rw [doParse_legacy_ok co input req lc hss hreq herr hz hleg]
            exact finishWithClient_exactly_one co _
        | false =>
          cases hm : yamlMarshalNode req.Transport with
          | error e =>
            rw [doParse_node_error co input req e hss hreq herr hz hm]
            exact Or.inr ⟨by simp, rfl⟩
          | ok text =>
            rw [doParse_node_ok co input req text hss hreq herr hz hm]
            exact finishWithClient_exactly_one co _

/-- C7: a non-URI input rejected by the structured-document parser — at
either unmarshalling site — yields a `PlatformError` with code
`InvalidConfig` whose message is `"failed to parse: "` followed by the
parser's error text, and the result carries no value. -/
theorem C7_parse_failure_invalid_config (co : Collaborators) (input : String)
    (hss : goHasPrefix (normalizeInput input) "ss://" = false) :
    (∀ e, co.unmarshalRequest (normalizeInput input) = .error e →
      doParseTunnelConfig co input =
        { value := "",
          error := some { code := .invalidConfig, message := "failed to parse: " ++ e,
                          details := none } }) ∧
    (∀ req e, co.unmarshalRequest (normalizeInput input) = .ok req → req.Error = none →
      req.Transport.isZero = true → co.unmarshalLegacy (normalizeInput input) = .error e →
      doParseTunnelConfig co input =
        { value := "",
          error := some { code := .invalidConfig, message := "failed to parse: " ++ e,
                          details := none } }) :=
  ⟨fun e hreq => doParse_unmarshal_error co input e hss hreq,
   fun req e hreq herr hz hleg =>
    doParse_legacy_unmarshal_error co input req e hss hreq herr hz hleg⟩

theorem C7_witness :
    doParseTunnelConfig
        (constCollaborators (.error "yaml: did not find expected node content")
          (.error "unused") (.ok ⟨"", ""⟩)) "\x7b" =
      { value := "",
        error := some { code := .invalidConfig,
                        message := "failed to parse: yaml: did not find expected node content",
                        details := none } } :=
  (C7_parse_failure_invalid_config
      (constCollaborators (.error "yaml: did not find expected node content")
        (.error "unused") (.ok ⟨"", ""⟩)) "\x7b" (by decide)).1
    "yaml: did not find expected node content" rfl

/-- C2: a parsed document carrying a top-level error object short-circuits
into a `ProviderError`-coded `PlatformError` whose message is the error's
message field verbatim (Unicode decoding happens in the YAML collaborator,
which already yields native text); its details map holds exactly the single
entry `"details"` when that field is non-empty and is absent when the field
is empty; and the result is independent of the legacy-unmarshal and
transport-construction collaborators, which are never invoked. -/
theorem C2_provider_error_short_circuit (co : Collaborators) (input : String)
    (req : parseTunnelConfigRequest) (pe : ProviderErrorDetail)
    (hss : goHasPrefix (normalizeInput input) "ss://" = false)
    (hreq : co.unmarshalRequest (normalizeInput input) = .ok req)
    (herr : req.Error = some pe) :
    (pe.Details ≠ "" →
      doParseTunnelConfig co input =
        { value := "",
          error := some { code := .providerError, message := pe.Message,
                          details := some [("details", pe.Details)] } }) ∧
    (pe.Details = "" →
      doParseTunnelConfig co input =
        { value := "",
          error := some { code := .providerError, message := pe.Message,
                          details := none } }) ∧
    (∀ nc ul,
      doParseTunnelConfig { co with unmarshalLegacy := ul, newClient := nc } input =
        doParseTunnelConfig co input) := by
  have h := doParse_provider co input req pe hss hreq herr
  refine ⟨fun hd => ?_, fun hd => ?_, fun nc ul => ?_⟩
  · rw [h]; simp [hd]
  · rw [h]; simp [hd]
  · have h2 := doParse_provider { co with unmarshalLegacy := ul, newClient := nc }
      input req pe hss hreq herr
    rw [h, h2]

theorem C2_witness :
    doParseTunnelConfig
        (constCollaborators (.ok { Transport := .zero, Error := some ⟨"Unauthorized", "Account expired"⟩ })
          (.error "unused") (.ok ⟨"", ""⟩)) "error: x" =
      { value := "",
        error := some { code := .providerError, message := "Unauthorized",
                        details := some [("details", "Account expired")] } } :=
  (C2_provider_error_short_circuit
      (constCollaborators (.ok { Transport := .zero, Error := some ⟨"Unauthorized", "Account expired"⟩ })
        (.error "unused") (.ok ⟨"", ""⟩)) "error: x"
      { Transport := .zero, Error := some ⟨"Unauthorized", "Account expired"⟩ }
      ⟨"Unauthorized", "Account expired"⟩ (by decide) rfl rfl).1 (by decide)

/-- C10: the provider-error classification is decided by the presence of
the (non-null) error object itself: even when its message field is empty,
the pipeline returns a `ProviderError`-coded `PlatformError` whose message
is the empty string, and the transport-construction and legacy collaborators
are never invoked. -/
theorem C10_error_presence_classifies (co : Collaborators) (input : String)
    (req : parseTunnelConfigRequest) (pe : ProviderErrorDetail)
    (hss : goHasPrefix (normalizeInput input) "ss://" = false)
    (hreq : co.unmarshalRequest (normalizeInput input) = .ok req)
    (herr : req.Error = some pe) (hmsg : pe.Message = "") :
    doParseTunnelConfig co input =
      { value := "",
        error := some { code := .providerError, message := "",
                        details := if pe.Details = "" then none
                                   else some [("details", pe.Details)] } } ∧
    (∀ nc ul,
      doParseTunnelConfig { co with unmarshalLegacy := ul, newClient := nc } input =
        doParseTunnelConfig co input) := by
  have h := doParse_provider co input req pe hss hreq herr
  refine ⟨by rw [h, hmsg], fun nc ul => ?_⟩
  have h2 := doParse_provider { co with unmarshalLegacy := ul, newClient := nc }
    input req pe hss hreq herr
  rw [h, h2]

theorem C10_witness :
    doParseTunnelConfig
        (constCollaborators (.ok { Transport := .zero, Error := some ⟨"", ""⟩ })
          (.error "unused") (.ok ⟨"", ""⟩)) "error: {}" =
      { value := "",
        error := some { code := .providerError, message := "", details := none } } := by
  have h := (C10_error_presence_classifies
      (constCollaborators (.ok { Transport := .zero, Error := some ⟨"", ""⟩ })
        (.error "unused") (.ok ⟨"", ""⟩)) "error: {}"
      { Transport := .zero, Error := some ⟨"", ""⟩ } ⟨"", ""⟩
      (by decide) rfl rfl rfl).1
  simpa using h

/-- C4: classification of a successfully parsed non-URI document follows
the precedence error ≻ transport ≻ legacy: a present error object yields a
provider error; otherwise a non-zero transport node is marshalled as the
modern nested config; otherwise the input is re-read as a legacy flat
config — and when that read succeeds (as it does, with all-zero fields,
for a document of only unrelated keys) the pipeline proceeds to transport
construction instead of rejecting. -/
theorem C4_classification_precedence (co : Collaborators) (input : String)
    (req : parseTunnelConfigRequest)
    (hss : goHasPrefix (normalizeInput input) "ss://" = false)
    (hreq : co.unmarshalRequest (normalizeInput input) = .ok req) :
    (∀ pe, req.Error = some pe →
      ∃ err, doParseTunnelConfig co input = { value := "", error := some err } ∧
        err.code = .providerError) ∧
    (req.Error = none → req.Transport.isZero = false →
      doParseTunnelConfig co input =
        match yamlMarshalNode req.Transport with
        | .error e =>
          { value := "",
            error := some { code := .invalidConfig,
                            message := "failed normalize config: " ++ e, details := none } }
        | .ok text => finishWithClient co text) ∧
    (req.Error = none → req.Transport.isZero = true →
      ∀ lc, co.unmarshalLegacy (normalizeInput input) = .ok lc →
        doParseTunnelConfig co input = finishWithClient co (yamlMarshalLegacy lc)) := by
  refine ⟨fun pe herr => ?_, fun herr hz => ?_, fun herr hz lc hleg => ?_⟩
  · exact ⟨_, doParse_provider co input req pe hss hreq herr, rfl⟩
  · cases hm : yamlMarshalNode req.Transport with
    | error e => exact doParse_node_error co input req e hss hreq herr hz hm
    | ok text => exact doParse_node_ok co input req text hss hreq herr hz hm
  · exact doParse_legacy_ok co input req lc hss hreq herr hz hleg

theorem C4_witness :
    doParseTunnelConfig
        (constCollaborators (.ok { Transport := .zero, Error := none })
          (.ok ⟨"", 0, "", "", ""⟩) (.error ⟨.collaborator "X", "no endpoint", none⟩))
        "unrelated: keys" =
      finishWithClient
        (constCollaborators (.ok { Transport := .zero, Error := none })
          (.ok ⟨"", 0, "", "", ""⟩) (.error ⟨.collaborator "X", "no endpoint", none⟩))
        (yamlMarshalLegacy ⟨"", 0, "", "", ""⟩) :=
  (C4_classification_precedence
      (constCollaborators (.ok { Transport := .zero, Error := none })
        (.ok ⟨"", 0, "", "", ""⟩) (.error ⟨.collaborator "X", "no endpoint", none⟩))
      "unrelated: keys" { Transport := .zero, Error := none }
      (by decide) rfl).2.2 rfl rfl ⟨"", 0, "", "", ""⟩ rfl

/-- The pipeline reaching transport construction: whenever
`canonicalTransportText` is defined, `doParseTunnelConfig` is exactly
`finishWithClient` on that text. -/
theorem doParse_reaches (co : Collaborators) (input : String) (t : String)
    (h : canonicalTransportText co input = some t) :
    doParseTunnelConfig co input = finishWithClient co t := by
  cases hss : goHasPrefix (normalizeInput input) "ss://" with
  | true =>
    have ht : normalizeInput input = t := by
      simpa [canonicalTransportText, hss] using h
    rw [doParse_uri co input hss, ht]
  | false =>
    cases hreq : co.unmarshalRequest (normalizeInput input) with
    | error e => exact absurd h (by simp [canonicalTransportText, hss, hreq])
    | ok req =>
      cases herr : req.Error with
      | some pe => exact absurd h (by simp [canonicalTransportText, hss, hreq, herr])
      | none =>
        cases hz : req.Transport.isZero with
        | true =>
          cases hleg : co.unmarshalLegacy (normalizeInput input) with
          | error e =>
            exact absurd h (by simp [canonicalTransportText, hss, hreq, herr, hz, hleg])
          | ok lc =>
            have ht : yamlMarshalLegacy lc = t := by
              simpa [canonicalTransportText, hss, hreq, herr, hz, hleg] using h
            rw [doParse_legacy_ok co input req lc hss hreq herr hz hleg, ht]
        | false =>
          cases hm : yamlMarshalNode req.Transport with
          | error e =>
            exact absurd h (by simp [canonicalTransportText, hss, hreq, herr, hz, hm])
          | ok text =>
            have ht : text = t := by
              simpa [canonicalTransportText, hss, hreq, herr, hz, hm] using h
            rw [doParse_node_ok co input req text hss hreq herr hz hm, ht]

/-- C1: whenever transport construction succeeds on the canonical transport
text, the result is a success whose serialized response always embeds that
canonical text, and whose `firstHop` is the shared address exactly when the
stream and packet first hops are equal and non-empty, and the empty string
when they differ or either is empty. -/
theorem C1_firstHop_success (co : Collaborators) (input : String) (t : String)
    (info : ClientInfo)
    (hreach : canonicalTransportText co input = some t)
    (hclient : co.newClient t = .ok info) :
    ∃ fh, doParseTunnelConfig co input =
        { value := jsonMarshalTunnelConfig { firstHop := fh, transport := t }, error := none } ∧
      (info.streamFirstHop = info.packetFirstHop ∧ info.streamFirstHop ≠ "" →
        fh = info.streamFirstHop) ∧
      (info.streamFirstHop ≠ info.packetFirstHop ∨ info.streamFirstHop = "" ∨
          info.packetFirstHop = "" → fh = "") ∧
      (fh ≠ "" → fh = info.streamFirstHop ∧ fh = info.packetFirstHop) := by
  refine ⟨if info.streamFirstHop = info.packetFirstHop then info.streamFirstHop else "",
    ?_, ?_, ?_, ?_⟩
  · rw [doParse_reaches co input t hreach]
    simp [finishWithClient, hclient]
  · rintro ⟨he, _⟩; simp [he]
  · rintro (hne | he | he)
    · exact if_neg hne
    · by_cases heq : info.streamFirstHop = info.packetFirstHop
      · rw [if_pos heq]; exact he
      · exact if_neg heq
    · by_cases heq : info.streamFirstHop = info.packetFirstHop
      · rw [if_pos heq, heq]; exact he
      · exact if_neg heq
  · intro hne
    by_cases heq : info.streamFirstHop = info.packetFirstHop
    · exact ⟨if_pos heq, (if_pos heq).trans heq⟩
    · exact absurd (if_neg heq) hne

theorem C1_witness :
    doParseTunnelConfig
        (constCollaborators (.error "unused") (.error "unused") (.ok ⟨"a:1", "b:2"⟩))
        "ss://opaque" =
      { value := jsonMarshalTunnelConfig { firstHop := "", transport := "ss://opaque" },
        error := none } := by
  obtain ⟨fh, heq, -, hdiff, -⟩ := C1_firstHop_success
    (constCollaborators (.error "unused") (.error "unused") (.ok ⟨"a:1", "b:2"⟩))
    "ss://opaque" "ss://opaque" ⟨"a:1", "b:2"⟩ (by decide) rfl
  rw [heq, hdiff (Or.inl (by decide))]

/-- C6: when the trimmed, slash-unescaped input starts with `ss://`, the
canonical transport text is that normalized input verbatim, the result is
independent of both structured-document unmarshalling collaborators (no
document parsing occurs before transport construction), and a successful
construction embeds the normalized input verbatim as the response's
transport. -/
theorem C6_uri_passthrough (co : Collaborators) (input : String)
    (hss : goHasPrefix (normalizeInput input) "ss://" = true) :
    doParseTunnelConfig co input = finishWithClient co (normalizeInput input) ∧
    canonicalTransportText co input = some (normalizeInput input) ∧
    (∀ ur ul,
      doParseTunnelConfig { co with unmarshalRequest := ur, unmarshalLegacy := ul } input =
        doParseTunnelConfig co input) ∧
    (∀ info, co.newClient (normalizeInput input) = .ok info →
      doParseTunnelConfig co input =
        { value := jsonMarshalTunnelConfig
            { firstHop := if info.streamFirstHop = info.packetFirstHop
                          then info.streamFirstHop else ""
              transport := normalizeInput input }
          error := none }) := by
  refine ⟨doParse_uri co input hss, by simp [canonicalTransportText, hss],
    fun ur ul => ?_, fun info hinfo => ?_⟩
  · rw [doParse_uri co input hss,
      doParse_uri { co with unmarshalRequest := ur, unmarshalLegacy := ul } input hss]
    rfl
  · rw [doParse_uri co input hss]
    simp [finishWithClient, hinfo]

theorem C6_witness :
    doParseTunnelConfig
        (constCollaborators (.error "unused") (.error "unused") (.ok ⟨"h:1", "h:1"⟩))
        "  ss:\\/\\/example\t" =
      { value := jsonMarshalTunnelConfig { firstHop := "h:1", transport := "ss://example" },
        error := none } := by
  have h := (C6_uri_passthrough
      (constCollaborators (.error "unused") (.error "unused") (.ok ⟨"h:1", "h:1"⟩))
      "  ss:\\/\\/example\t" (by decide)).2.2.2 ⟨"h:1", "h:1"⟩ rfl
  rw [h]
  rfl

/-- C8 counterexample: the claim demands a non-empty message on every
failure path, but a document whose error object has an empty message field
(e.g. `error: {}`, which unmarshals to a present error object with zero
fields) produces a `ProviderError` whose message is the empty string. -/
theorem C8_counterexample :
    (doParseTunnelConfig
        (constCollaborators (.ok { Transport := .zero, Error := some ⟨"", ""⟩ })
          (.error "unused") (.ok ⟨"", ""⟩)) "error: {}").error =
      some { code := .providerError, message := "", details := none } := by
  decide

/-- C8 (amended): every failing result carries a non-empty code string;
and the message is also non-empty provided the provider-error message (if
any) is non-empty and the transport-construction collaborator only reports
errors with non-empty code and message — without those provisos the
message (and, for collaborator-originated errors, the code) is passed
through verbatim and may be empty. -/
theorem C8_amended_nonempty_error_fields (co : Collaborators) (input : String)
    (hprov : ∀ req pe, co.unmarshalRequest (normalizeInput input) = .ok req →
      req.Error = some pe → pe.Message ≠ "")
    (hcoll : ∀ t pe, co.newClient t = .error pe → pe.code.str ≠ "" ∧ pe.message ≠ "") :
    ∀ e, (doParseTunnelConfig co input).error = some e →
      e.code.str ≠ "" ∧ e.message ≠ "" := by
  have hfin : ∀ t e, (finishWithClient co t).error = some e →
      e.code.str ≠ "" ∧ e.message ≠ "" := by
    intro t e he
    rcases finishWithClient_cases co t with ⟨pe, hc, heq⟩ | ⟨info, hc, heq⟩
    · rw [heq] at he
      cases he
      exact hcoll t e hc
    · rw [heq] at he
      cases he
  intro e he
  cases hss : goHasPrefix (normalizeInput input) "ss://" with
  | true =>
    rw [doParse_uri co input hss] at he
    exact hfin _ e he
  | false =>
    cases hreq : co.unmarshalRequest (normalizeInput input) with
    | error pe =>
      rw [doParse_unmarshal_error co input pe hss hreq] at he
      cases he
      exact ⟨(by decide : ErrorCode.invalidConfig.str ≠ ""),
        append_ne_empty_left _ _ (by decide)⟩
    | ok req =>
      cases herr : req.Error with
      | some pe =>
        rw [doParse_provider co input req pe hss hreq herr] at he
        cases he
        exact ⟨(by decide : ErrorCode.providerError.str ≠ ""), hprov req pe hreq herr⟩
      | none =>
        cases hz : req.Transport.isZero with
        | true =>
          cases hleg : co.unmarshalLegacy (normalizeInput input) with
          | error pe =>
            rw [doParse_legacy_unmarshal_error co input req pe hss hreq herr hz hleg] at he
            cases he
            exact ⟨(by decide : ErrorCode.invalidConfig.str ≠ ""),
              append_ne_empty_left _ _ (by decide)⟩
          | ok lc =>
            rw [doParse_legacy_ok co input req lc hss hreq herr hz hleg] at he
            exact hfin _ e he
        | false =>
          cases hm : yamlMarshalNode req.Transport with
          | error pe =>
            rw [doParse_node_error co input req pe hss hreq herr hz hm] at he
            cases he
            exact ⟨(by decide : ErrorCode.invalidConfig.str ≠ ""),
              append_ne_empty_left _ _ (by decide)⟩
          | ok text =>
            rw [doParse_node_ok co input req text hss hreq herr hz hm] at he
            exact hfin _ e he

/-!
Scalar-encoding round trip (C3 and C5): every scalar token the serializer
emits reads back to the original contents.
-/

theorem sq_roundtrip (cs : List Char) :
    sqDecodeRest (sqBody cs ++ ['\'']) = some cs := by
  induction cs with
  | nil => rfl
  | cons c cs ih =>
    by_cases hc : c = '\''
    · subst hc
      show sqDecodeRest ('\'' :: '\'' :: (sqBody cs ++ ['\''])) = _
      rw [sqDecodeRest.eq_def]
      simp +decide [ih]
    · rw [show sqBody (c :: cs) = c :: sqBody cs by rw [sqBody.eq_def]; simp [hc]]
      rw [List.cons_append, sqDecodeRest.eq_def]
      simp +decide [hc, ih]

theorem hexVal_hexDig : ∀ n < 16, hexVal (hexDig n) = some n := by decide

theorem dq_roundtrip (cs : List Char) :
    dqDecodeRest (dqBody cs ++ ['"']) = some cs := by
  induction cs with
  | nil => rfl
  | cons c cs ih =>
    show dqDecodeRest (dqEscChar c ++ dqBody cs ++ ['"']) = some (c :: cs)
    by_cases h1 : c = '"'
    · subst h1
      rw [show dqEscChar '"' = ['\\', '"'] from rfl]
      rw [List.cons_append, List.cons_append, dqDecodeRest.eq_def]
      simp +decide [ih]
    by_cases h2 : c = '\\'
    · subst h2
      rw [show dqEscChar '\\' = ['\\', '\\'] from rfl]
      rw [List.cons_append, List.cons_append, dqDecodeRest.eq_def]
      simp +decide [ih]
    by_cases h3 : c = '\n'
    · subst h3
      rw [show dqEscChar '\n' = ['\\', 'n'] from rfl]
      rw [List.cons_append, List.cons_append, dqDecodeRest.eq_def]
      simp +decide [ih]
    by_cases h4 : c = '\t'
    · subst h4
      rw [show dqEscChar '\t' = ['\\', 't'] from rfl]
      rw [List.cons_append, List.cons_append, dqDecodeRest.eq_def]
      simp +decide [ih]
    by_cases h5 : c = '\r'
    · subst h5
      rw [show dqEscChar '\r' = ['\\', 'r'] from rfl]
      rw [List.cons_append, List.cons_append, dqDecodeRest.eq_def]
      simp +decide [ih]
    by_cases h6 : isCtl c = true
    · have hlt : c.toNat < 128 := by
        simp [isCtl] at h6
        rcases h6 with h | h
        · omega
        · rw [h]; omega
      have hdiv : c.toNat / 16 < 16 := by omega
      have hmod : c.toNat % 16 < 16 := by omega
      simp only [dqEscChar, if_neg h1, if_neg h2, if_neg h3, if_neg h4, if_neg h5, if_pos h6]
      simp only [List.cons_append, List.nil_append]
      rw [dqDecodeRest.eq_def]
      simp +decide [hexVal_hexDig _ hdiv, hexVal_hexDig _ hmod, ih]
      rw [show 16 * (c.toNat / 16) + c.toNat % 16 = c.toNat by omega, Char.ofNat_toNat]
    · have h6' : isCtl c = false := by simpa using h6
      rw [show dqEscChar c = [c] by simp [dqEscChar, h1, h2, h3, h4, h5, h6']]
      rw [List.cons_append, List.nil_append, dqDecodeRest.eq_def]
      simp [h1, h2, ih]

theorem needsSQ_false_facts {c : Char} {cs : List Char}
    (h : needsSQ (c :: cs) = false) : plainIndicatorChar c = false := by
  simp only [needsSQ, Bool.or_eq_false_iff] at h
  exact h.1.1.1.1

theorem scalar_roundtrip (cs : List Char) :
    yamlDecodeScalarChars (yamlEncodeScalarChars cs) = some cs := by
  unfold yamlEncodeScalarChars
  by_cases hdq : needsDQ cs = true
  · simp only [if_pos hdq, dqEncode, yamlDecodeScalarChars]
    simp [dq_roundtrip]
  by_cases hsq : needsSQ cs = true
  · simp only [if_neg hdq, if_pos hsq, sqEncode, yamlDecodeScalarChars]
    simp [sq_roundtrip]
  · simp only [if_neg hdq, if_neg hsq]
    have hsq' : needsSQ cs = false := by simpa using hsq
    match cs, hsq' with
    | [], hsq' => simp [needsSQ] at hsq'
    | c :: cs, hsq' =>
      have hind := needsSQ_false_facts hsq'
      have hq : c ≠ '"' := by
        intro he; subst he; simp [plainIndicatorChar] at hind
      have hq2 : c ≠ '\'' := by
        intro he; subst he; simp [plainIndicatorChar] at hind
      simp [yamlDecodeScalarChars, hq, hq2]

/-!
Decimal round trip for the unquoted `server_port` field.
-/

theorem parseNatAux_nil (acc : Nat) : parseNatAux acc [] = some acc := rfl

theorem parseNatAux_cons (acc : Nat) (c : Char) (rest : List Char) :
    parseNatAux acc (c :: rest) =
      if c.isDigit then parseNatAux (10 * acc + (c.toNat - 48)) rest else none := rfl

theorem parseNatAux_append (xs : List Char) : ∀ acc ys,
    parseNatAux acc (xs ++ ys) = (parseNatAux acc xs).bind fun a => parseNatAux a ys := by
  induction xs with
  | nil => intro acc ys; rw [List.nil_append, parseNatAux_nil]; rfl
  | cons c xs ih =>
    intro acc ys
    rw [List.cons_append, parseNatAux_cons, parseNatAux_cons]
    by_cases h : c.isDigit
    · rw [if_pos h, if_pos h, ih]
    · rw [if_neg h, if_neg h]; rfl

theorem digit_char_facts : ∀ d < 10,
    (Char.ofNat (48 + d)).isDigit = true ∧ (Char.ofNat (48 + d)).toNat = 48 + d := by decide

theorem parseNatAux_natDigitsAux : ∀ fuel n acc, n < fuel →
    ∃ k, 0 < k ∧ parseNatAux acc (natDigitsAux fuel n) = some (acc * k + n) := by
  intro fuel
  induction fuel with
  | zero => intro n acc h; omega
  | succ fuel ih =>
    intro n acc h
    rw [natDigitsAux]
    by_cases h10 : n < 10
    · refine ⟨10, by omega, ?_⟩
      have hd := digit_char_facts n h10
      rw [if_pos h10, parseNatAux_cons, if_pos hd.1, hd.2, parseNatAux_nil]
      congr 1
      omega
    · rw [if_neg h10, parseNatAux_append]
      obtain ⟨k, hk, heq⟩ := ih (n / 10) acc (by omega)
      rw [heq]
      refine ⟨10 * k, by omega, ?_⟩
      have hd := digit_char_facts (n % 10) (by omega)
      show parseNatAux (acc * k + n / 10) [Char.ofNat (48 + n % 10)] = _
      rw [parseNatAux_cons, if_pos hd.1, hd.2, parseNatAux_nil]
      congr 1
      have hmul : acc * (10 * k) = 10 * (acc * k) := by ring
      rw [hmul]
      omega

theorem natDigits_ne_nil (n : Nat) : natDigits n ≠ [] := by
  unfold natDigits
  rw [natDigitsAux]
  by_cases h : n < 10 <;> simp [h]

theorem parseNat_natDigits (n : Nat) : parseNatChars (natDigits n) = some n := by
  obtain ⟨k, hk, heq⟩ := parseNatAux_natDigitsAux (n + 1) n 0 (by omega)
  unfold parseNatChars
  rw [if_neg (by simpa [List.isEmpty_iff] using natDigits_ne_nil n)]
  unfold natDigits
  rw [heq]
  simp

/-!
The serializer never emits a raw newline inside a scalar token or a
decimal, so each canonical line is intact.
-/

theorem hexDig_props : ∀ m < 16, hexDig m ≠ '\n' ∧ hexDig m ≠ ' ' ∧ hexDig m ≠ ':' := by
  decide

theorem newline_not_mem_dqEscChar (c : Char) : '\n' ∉ dqEscChar c := by
  unfold dqEscChar
  by_cases h1 : c = '"'
  · simp +decide [h1]
  by_cases h2 : c = '\\'
  · simp +decide [h2]
  by_cases h3 : c = '\n'
  · simp +decide [h1, h2, h3]
  by_cases h4 : c = '\t'
  · simp +decide [h1, h2, h3, h4]
  by_cases h5 : c = '\r'
  · simp +decide [h1, h2, h3, h4, h5]
  by_cases h6 : isCtl c = true
  · have hlt : c.toNat < 128 := by
      simp [isCtl] at h6
      rcases h6 with h | h
      · omega
      · rw [h]; omega
    have d1 := (hexDig_props (c.toNat / 16) (by omega)).1
    have d2 := (hexDig_props (c.toNat % 16) (by omega)).1
    simp +decide [h1, h2, h3, h4, h5, h6]
    exact ⟨fun he => d1 he.symm, fun he => d2 he.symm⟩
  · have h6' : isCtl c = false := by simpa using h6
    simp [h1, h2, h3, h4, h5, h6']
    intro he
    exact h3 he.symm

theorem dqBody_cons (c : Char) (cs : List Char) :
    dqBody (c :: cs) = dqEscChar c ++ dqBody cs := rfl

theorem newline_not_mem_dqBody (cs : List Char) : '\n' ∉ dqBody cs := by
  induction cs with
  | nil => simp [dqBody]
  | cons c cs ih =>
    rw [dqBody_cons]
    intro h
    rcases List.mem_append.mp h with h | h
    · exact newline_not_mem_dqEscChar c h
    · exact ih h

theorem sqBody_sub (cs : List Char) : ∀ x ∈ sqBody cs, x = '\'' ∨ x ∈ cs := by
  induction cs with
  | nil => simp [sqBody]
  | cons c cs ih =>
    intro x hx
    by_cases hc : c = '\''
    · subst hc
      rw [show sqBody ('\'' :: cs) = '\'' :: '\'' :: sqBody cs from rfl] at hx
      rcases hx with _ | ⟨_, hx⟩
      · exact Or.inl rfl
      rcases hx with _ | ⟨_, hx⟩
      · exact Or.inl rfl
      · rcases ih x hx with h | h
        · exact Or.inl h
        · exact Or.inr (List.mem_cons_of_mem _ h)
    · rw [show sqBody (c :: cs) = c :: sqBody cs by rw [sqBody.eq_def]; simp [hc]] at hx
      rcases hx with _ | ⟨_, hx⟩
      · exact Or.inr (List.mem_cons_self ..)
      · rcases ih x hx with h | h
        · exact Or.inl h
        · exact Or.inr (List.mem_cons_of_mem _ h)

theorem needsDQ_false_not_ctl {cs : List Char} (h : needsDQ cs = false) :
    ∀ x ∈ cs, isCtl x = false := by
  intro x hx
  have := List.any_eq_false.mp h x hx
  simpa using this

theorem newline_not_mem_encode (cs : List Char) : '\n' ∉ yamlEncodeScalarChars cs := by
  unfold yamlEncodeScalarChars
  by_cases hdq : needsDQ cs = true
  · rw [if_pos hdq]
    intro h
    rcases h with _ | ⟨_, h⟩
    rcases List.mem_append.mp h with h | h
    · exact newline_not_mem_dqBody cs h
    · simp at h
  · have hdq' : needsDQ cs = false := by simpa using hdq
    rw [if_neg hdq]
    by_cases hsq : needsSQ cs = true
    · rw [if_pos hsq]
      intro h
      rcases h with _ | ⟨_, h⟩
      rcases List.mem_append.mp h with h | h
      · rcases sqBody_sub cs '\n' h with h | h
        · exact absurd h (by decide)
        · have := needsDQ_false_not_ctl hdq' _ h
          simp [isCtl] at this
      · simp at h
    · rw [if_neg hsq]
      intro h
      have := needsDQ_false_not_ctl hdq' _ h
      simp [isCtl] at this

theorem natDigitsAux_all_digit : ∀ fuel n x, x ∈ natDigitsAux fuel n → x.isDigit = true := by
  intro fuel
  induction fuel with
  | zero => intro n x h; simp [natDigitsAux] at h
  | succ fuel ih =>
    intro n x h
    rw [natDigitsAux] at h
    by_cases h10 : n < 10
    · rw [if_pos h10] at h
      rcases h with _ | ⟨_, h⟩
      · exact (digit_char_facts n h10).1
      · exact absurd h (List.not_mem_nil _)
    · rw [if_neg h10] at h
      rcases List.mem_append.mp h with h | h
      · exact ih _ x h
      · rcases h with _ | ⟨_, h⟩
        · exact (digit_char_facts (n % 10) (by omega)).1
        · exact absurd h (List.not_mem_nil _)

theorem newline_not_mem_natDigits (n : Nat) : '\n' ∉ natDigits n := by
  intro h
  have := natDigitsAux_all_digit (n + 1) n '\n' h
  simp [Char.isDigit] at this

/-!
Reading one canonical `key: value` line.
-/

theorem dropPrefixChars_append : ∀ p rest, dropPrefixChars p (p ++ rest) = some rest := by
  intro p
  induction p with
  | nil => intro rest; rfl
  | cons c p ih =>
    intro rest
    rw [List.cons_append, show dropPrefixChars (c :: p) (c :: (p ++ rest)) =
      if c = c then dropPrefixChars p (p ++ rest) else none from rfl, if_pos rfl, ih]

theorem takeLineChars_append : ∀ tok rest, '\n' ∉ tok →
    takeLineChars (tok ++ '\n' :: rest) = some (tok, rest) := by
  intro tok
  induction tok with
  | nil => intro rest _; rfl
  | cons c tok ih =>
    intro rest h
    have hc : ¬c = '\n' := fun he => h (he ▸ List.mem_cons_self ..)
    rw [List.cons_append, show takeLineChars (c :: (tok ++ '\n' :: rest)) =
      if c = '\n' then some ([], tok ++ '\n' :: rest)
      else (fun pr => (c :: pr.1, pr.2)) <$> takeLineChars (tok ++ '\n' :: rest) from rfl]
    rw [if_neg hc, ih rest (fun hm => h (List.mem_cons_of_mem _ hm))]
    rfl

theorem parseLegacyField_canonical (key : String) (tok rest : List Char) (h : '\n' ∉ tok) :
    parseLegacyField key (key.data ++ (tok ++ '\n' :: rest)) = some (tok, rest) := by
  unfold parseLegacyField
  rw [dropPrefixChars_append]
  exact takeLineChars_append tok rest h

/-!
The canonical legacy text decomposes into its five lines.
-/

theorem yamlMarshalLegacy_data (c : legacyShadowsocksConfig) :
    (yamlMarshalLegacy c).data =
      "server: ".data ++ (yamlEncodeScalarChars c.Server.data ++ '\n' ::
      ("server_port: ".data ++ (natDigits c.ServerPort ++ '\n' ::
      ("method: ".data ++ (yamlEncodeScalarChars c.Method.data ++ '\n' ::
      ("password: ".data ++ (yamlEncodeScalarChars c.Password.data ++ '\n' ::
      ("prefix: ".data ++ (yamlEncodeScalarChars c.Prefix.data ++ ['\n']))))))))) := by
  simp [yamlMarshalLegacy, yamlEncodeScalar, natToString, String.data_append,
    List.append_assoc]

/-- C3: the canonical legacy text always contains the five keys in struct
order — with `server_port` rendered as an unquoted decimal line — and
re-parsing the canonical text restores every field of the original config
exactly. -/
theorem C3_legacy_canonical_roundtrip (c : legacyShadowsocksConfig) :
    containsInOrderChars
      ["server:".data, ("server_port: " ++ natToString c.ServerPort ++ "\n").data,
       "method:".data, "password:".data, "prefix:".data]
      (yamlMarshalLegacy c).data ∧
    yamlParseLegacyCanonical (yamlMarshalLegacy c) = some c := by
  constructor
  · rw [yamlMarshalLegacy_data]
    refine ⟨[], ' ' :: (yamlEncodeScalarChars c.Server.data ++ '\n' ::
      ("server_port: ".data ++ (natDigits c.ServerPort ++ '\n' ::
      ("method: ".data ++ (yamlEncodeScalarChars c.Method.data ++ '\n' ::
      ("password: ".data ++ (yamlEncodeScalarChars c.Password.data ++ '\n' ::
      ("prefix: ".data ++ (yamlEncodeScalarChars c.Prefix.data ++ ['\n']))))))))), ?_, ?_⟩
    · rw [show ("server: " : String).data = "server:".data ++ [' '] from rfl]
      simp [List.append_assoc]
    refine ⟨' ' :: (yamlEncodeScalarChars c.Server.data ++ ['\n']),
      "method: ".data ++ (yamlEncodeScalarChars c.Method.data ++ '\n' ::
      ("password: ".data ++ (yamlEncodeScalarChars c.Password.data ++ '\n' ::
      ("prefix: ".data ++ (yamlEncodeScalarChars c.Prefix.data ++ ['\n']))))), ?_, ?_⟩
    · simp [String.data_append, natToString, List.append_assoc]
    refine ⟨[], ' ' :: (yamlEncodeScalarChars c.Method.data ++ '\n' ::
      ("password: ".data ++ (yamlEncodeScalarChars c.Password.data ++ '\n' ::
      ("prefix: ".data ++ (yamlEncodeScalarChars c.Prefix.data ++ ['\n']))))), ?_, ?_⟩
    · rw [show ("method: " : String).data = "method:".data ++ [' '] from rfl]
      simp [List.append_assoc]
    refine ⟨' ' :: (yamlEncodeScalarChars c.Method.data ++ ['\n']),
      ' ' :: (yamlEncodeScalarChars c.Password.data ++ '\n' ::
      ("prefix: ".data ++ (yamlEncodeScalarChars c.Prefix.data ++ ['\n']))), ?_, ?_⟩
    · rw [show ("password: " : String).data = "password:".data ++ [' '] from rfl]
      simp [List.append_assoc]
    refine ⟨' ' :: (yamlEncodeScalarChars c.Password.data ++ ['\n']),
      ' ' :: (yamlEncodeScalarChars c.Prefix.data ++ ['\n']), ?_, trivial⟩
    · rw [show ("prefix: " : String).data = "prefix:".data ++ [' '] from rfl]
      simp [List.append_assoc]
  · unfold yamlParseLegacyCanonical
    rw [yamlMarshalLegacy_data]
    rw [parseLegacyField_canonical "server: " _ _ (newline_not_mem_encode _)]
    simp only [Option.bind, scalar_roundtrip]
    rw [parseLegacyField_canonical "server_port: " _ _ (newline_not_mem_natDigits _)]
    simp only [Option.bind, parseNat_natDigits]
    rw [parseLegacyField_canonical "method: " _ _ (newline_not_mem_encode _)]
    simp only [Option.bind, scalar_roundtrip]
    rw [parseLegacyField_canonical "password: " _ _ (newline_not_mem_encode _)]
    simp only [Option.bind, scalar_roundtrip]
    have hlast : yamlEncodeScalarChars c.Prefix.data ++ ['\n'] =
        yamlEncodeScalarChars c.Prefix.data ++ '\n' :: [] := rfl
    rw [hlast, parseLegacyField_canonical "prefix: " _ _ (newline_not_mem_encode _)]
    simp only [Option.bind, scalar_roundtrip]
    rfl

/-!
Token-level facts for re-parsing canonical node text (C5).
-/

theorem splitKey_of_append (kTok : List Char) : ∀ after, ':' ∉ kTok →
    splitKeyChars (kTok ++ ':' :: after) = some (kTok, after) := by
  induction kTok with
  | nil => intro after _; rfl
  | cons c k ih =>
    intro after h
    have hc : ¬c = ':' := fun he => h (he ▸ List.mem_cons_self ..)
    rw [List.cons_append, show splitKeyChars (c :: (k ++ ':' :: after)) =
      if c = ':' then some ([], k ++ ':' :: after)
      else (fun pr => (c :: pr.1, pr.2)) <$> splitKeyChars (k ++ ':' :: after) from rfl]
    rw [if_neg hc, ih after (fun hm => h (List.mem_cons_of_mem _ hm))]
    rfl

theorem splitAtSpace_no_space (xs : List Char) (h : ' ' ∉ xs) :
    splitAtSpace xs = (xs, none) := by
  induction xs with
  | nil => rfl
  | cons c xs ih =>
    have hc : ¬c = ' ' := fun he => h (he ▸ List.mem_cons_self ..)
    rw [show splitAtSpace (c :: xs) = if c = ' ' then ([], some xs)
      else ((splitAtSpace xs).1.cons c, (splitAtSpace xs).2) from rfl]
    rw [if_neg hc, ih (fun hm => h (List.mem_cons_of_mem _ hm))]

theorem splitAtSpace_append (xs : List Char) : ∀ ys, ' ' ∉ xs →
    splitAtSpace (xs ++ ' ' :: ys) = (xs, some ys) := by
  induction xs with
  | nil => intro ys _; rfl
  | cons c xs ih =>
    intro ys h
    have hc : ¬c = ' ' := fun he => h (he ▸ List.mem_cons_self ..)
    rw [List.cons_append, show splitAtSpace (c :: (xs ++ ' ' :: ys)) =
      if c = ' ' then ([], some (xs ++ ' ' :: ys))
      else ((splitAtSpace (xs ++ ' ' :: ys)).1.cons c, (splitAtSpace (xs ++ ' ' :: ys)).2)
      from rfl]
    rw [if_neg hc, ih ys (fun hm => h (List.mem_cons_of_mem _ hm))]

theorem encode_ne_nil (cs : List Char) : yamlEncodeScalarChars cs ≠ [] := by
  unfold yamlEncodeScalarChars
  by_cases hdq : needsDQ cs = true
  · simp [hdq, dqEncode]
  by_cases hsq : needsSQ cs = true
  · simp [hdq, hsq, sqEncode]
  · have : cs ≠ [] := by
      intro he; subst he; simp [needsSQ] at hsq
    simp [hdq, hsq, this]

theorem encode_head (cs : List Char) (d : Char) (ds : List Char)
    (h : yamlEncodeScalarChars cs = d :: ds) :
    d = '"' ∨ d = '\'' ∨ plainIndicatorChar d = false := by
  unfold yamlEncodeScalarChars at h
  by_cases hdq : needsDQ cs = true
  · rw [if_pos hdq] at h
    unfold dqEncode at h
    exact Or.inl (List.cons.injEq .. ▸ h).1.symm
  by_cases hsq : needsSQ cs = true
  · rw [if_neg hdq, if_pos hsq] at h
    unfold sqEncode at h
    exact Or.inr (Or.inl (List.cons.injEq .. ▸ h).1.symm)
  · rw [if_neg hdq, if_neg hsq] at h
    subst h
    exact Or.inr (Or.inr (needsSQ_false_facts (by simpa using hsq)))

theorem encode_head_not (cs : List Char) (d : Char) (ds : List Char)
    (h : yamlEncodeScalarChars cs = d :: ds) :
    d ≠ '&' ∧ d ≠ '*' ∧ d ≠ '{' ∧ d ≠ ' ' := by
  rcases encode_head cs d ds h with h1 | h1 | h1
  · subst h1; exact ⟨by decide, by decide, by decide, by decide⟩
  · subst h1; exact ⟨by decide, by decide, by decide, by decide⟩
  · refine ⟨?_, ?_, ?_, ?_⟩ <;> intro he <;> subst he <;> simp [plainIndicatorChar] at h1

theorem encode_ne_braces (cs : List Char) : yamlEncodeScalarChars cs ≠ ['{', '}'] := by
  intro h
  exact (encode_head_not cs '{' ['}'] h).2.2.1 rfl

theorem validAnchor_facts (a : List Char) (h : validAnchorChars a = true) :
    ' ' ∉ a ∧ '\n' ∉ a ∧ a ≠ [] ∧ ':' ∉ a := by
  unfold validAnchorChars at h
  rw [Bool.and_eq_true] at h
  have hall := List.all_eq_true.mp h.2
  refine ⟨fun hm => ?_, fun hm => ?_, ?_, fun hm => ?_⟩
  · have := hall _ hm; simp at this
  · have := hall _ hm; simp at this
  · intro he; subst he; simp at h
  · have := hall _ hm; simp at this

theorem contains_lookup (env : List (String × YamlValue)) (n : String)
    (h : (env.map Prod.fst).contains n = true) : ∃ v, env.lookup n = some v := by
  induction env with
  | nil => simp at h
  | cons p env ih =>
    by_cases he : n = p.1
    · exact ⟨p.2, by simp [List.lookup, he]⟩
    · have h' : (env.map Prod.fst).contains n = true := by
        simp only [List.map_cons, List.contains_cons] at h
        rcases Bool.or_eq_true_iff.mp h with h | h
        · exact absurd (by simpa using h) he
        · exact h
      obtain ⟨v, hv⟩ := ih h'
      refine ⟨v, ?_⟩
      have hne : (n == p.1) = false := by simpa using he
      simp [List.lookup, hne, hv]

theorem hasBadColon_colon_end (xs : List Char) : hasBadColon (xs ++ [':']) = true := by
  induction xs with
  | nil => rfl
  | cons c xs ih =>
    rw [List.cons_append, show hasBadColon (c :: (xs ++ [':'])) =
      ((c = ':' && ((xs ++ [':']).isEmpty || (xs ++ [':']).head? = some ' ')) ||
        hasBadColon (xs ++ [':'])) from rfl, ih]
    simp

theorem hasBadColon_colon_space (xs : List Char) : ∀ ys,
    hasBadColon (xs ++ ':' :: ' ' :: ys) = true := by
  induction xs with
  | nil => intro ys; simp [hasBadColon]
  | cons c xs ih =>
    intro ys
    rw [List.cons_append, show hasBadColon (c :: (xs ++ ':' :: ' ' :: ys)) =
      ((c = ':' && ((xs ++ ':' :: ' ' :: ys).isEmpty ||
        (xs ++ ':' :: ' ' :: ys).head? = some ' ')) ||
        hasBadColon (xs ++ ':' :: ' ' :: ys)) from rfl, ih]
    simp

theorem needsSQ_false_no_badColon {cs : List Char} (h : needsSQ cs = false) :
    hasBadColon cs = false := by
  match cs, h with
  | c :: cs, h =>
    simp only [needsSQ, Bool.or_eq_false_iff] at h
    exact h.1.1.2

theorem validPlainKey_facts (k : String) (h : validPlainKey k = true) :
    ':' ∉ k.data ∧ k.data ≠ [] ∧
    (∀ d ds, k.data = d :: ds → plainIndicatorChar d = false) ∧ '\n' ∉ k.data := by
  unfold validPlainKey at h
  rw [Bool.and_eq_true, Bool.and_eq_true] at h
  obtain ⟨⟨hdq, hsq⟩, hcol⟩ := h
  have hdq' : needsDQ k.data = false := by simpa using hdq
  have hsq' : needsSQ k.data = false := by simpa using hsq
  have hcol' : k.data.contains ':' = false := by simpa using hcol
  refine ⟨fun hm => ?_, ?_, fun d ds hd => ?_, fun hm => ?_⟩
  · rw [Bool.eq_false_iff] at hcol'
    exact hcol' (List.elem_iff.mpr hm)
  · intro he; rw [he] at hsq'; simp [needsSQ] at hsq'
  · rw [hd] at hsq'; exact needsSQ_false_facts hsq'
  · have := needsDQ_false_not_ctl hdq' _ hm
    simp [isCtl] at this

theorem parseEntriesF_nil (fuel : Nat) (env : List (String × YamlValue)) (ind : Nat) :
    parseEntriesF (fuel + 1) env ind [] = .ok ([], env, []) := rfl

theorem parseEntriesF_cons (fuel : Nat) (env : List (String × YamlValue)) (ind i : Nat)
    (cs : List Char) (rest : List (Nat × List Char)) :
    parseEntriesF (fuel + 1) env ind ((i, cs) :: rest) =
      if i < ind then .ok ([], env, (i, cs) :: rest)
      else if i = ind then
        match splitKeyChars cs with
        | none => .error "expected mapping line"
        | some (kTok, after) =>
          match classifyAfter after with
          | none => .error "malformed line"
          | some (.scalarTok anc tok) =>
            match yamlDecodeScalarChars tok with
            | none => .error "malformed scalar"
            | some v =>
              let vv := YamlValue.scalar ⟨v⟩
              let env1 := match anc with | none => env | some a => (a, vv) :: env
              match parseEntriesF fuel env1 ind rest with
              | .error e => .error e
              | .ok (es, env2, rem) => .ok ((⟨kTok⟩, vv) :: es, env2, rem)
          | some (.aliasTok n) =>
            match env.lookup n with
            | none => .error "unknown anchor"
            | some vv =>
              match parseEntriesF fuel env ind rest with
              | .error e => .error e
              | .ok (es, env2, rem) => .ok ((⟨kTok⟩, vv) :: es, env2, rem)
          | some (.emptyMap anc) =>
            let vv := YamlValue.mapping []
            let env1 := match anc with | none => env | some a => (a, vv) :: env
            match parseEntriesF fuel env1 ind rest with
            | .error e => .error e
            | .ok (es, env2, rem) => .ok ((⟨kTok⟩, vv) :: es, env2, rem)
          | some (.child anc) =>
            match parseEntriesF fuel env (ind + 4) rest with
            | .error e => .error e
            | .ok (ces, cenv, rem1) =>
              let vv := YamlValue.mapping ces
              let env1 := match anc with | none => cenv | some a => (a, vv) :: cenv
              match parseEntriesF fuel env1 ind rem1 with
              | .error e => .error e
              | .ok (es, env2, rem) => .ok ((⟨kTok⟩, vv) :: es, env2, rem)
      else .error "unexpected indentation" := rfl

theorem classifyAfter_scalar (enc : List Char) (hne : enc ≠ [])
    (hhead : ∀ d ds, enc = d :: ds → d ≠ '&' ∧ d ≠ '*')
    (hbr : enc ≠ ['{', '}']) :
    classifyAfter (' ' :: enc) = some (.scalarTok none enc) := by
  match enc, hne with
  | d :: tl2, _ =>
    obtain ⟨h1, h2⟩ := hhead d tl2 rfl
    show (if ' ' = ' ' then _ else none) = _
    rw [if_pos rfl]
    simp only [if_neg h1, if_neg h2, if_neg hbr, if_true, eq_self_iff_true]

theorem classifyAfter_anchored_scalar (a : String) (tok : List Char) (hsp : ' ' ∉ a.data)
    (hbr : tok ≠ ['{', '}']) :
    classifyAfter (' ' :: '&' :: (a.data ++ ' ' :: tok)) = some (.scalarTok (some a) tok) := by
  show (if ' ' = ' ' then _ else none) = _
  rw [if_pos rfl]
  simp only [splitAtSpace_append a.data tok hsp, if_neg hbr, if_true, eq_self_iff_true]
  all_goals rfl

theorem classifyAfter_anchored_empty (a : String) (hsp : ' ' ∉ a.data) :
    classifyAfter (' ' :: '&' :: (a.data ++ ' ' :: ['{', '}'])) = some (.emptyMap (some a)) := by
  show (if ' ' = ' ' then _ else none) = _
  rw [if_pos rfl]
  simp only [splitAtSpace_append a.data _ hsp, if_true, eq_self_iff_true]
  all_goals rfl

theorem classifyAfter_anchored_child (a : String) (hsp : ' ' ∉ a.data) :
    classifyAfter (' ' :: '&' :: a.data) = some (.child (some a)) := by
  show (if ' ' = ' ' then _ else none) = _
  rw [if_pos rfl]
  simp only [splitAtSpace_no_space a.data hsp, if_true, eq_self_iff_true]
  all_goals rfl

theorem classifyAfter_alias (n : String) :
    classifyAfter (' ' :: '*' :: n.data) = some (.aliasTok n) := by
  show (if ' ' = ' ' then _ else none) = _
  rw [if_pos rfl]
  simp +decide

theorem classifyAfter_empty :
    classifyAfter (' ' :: ['{', '}']) = some (.emptyMap none) := rfl

theorem classifyAfter_child : classifyAfter [] = some (.child none) := rfl

theorem firstBelow_mono {i j : Nat} (h : i ≤ j) :
    ∀ {t : List (Nat × List Char)}, firstBelow i t → firstBelow j t := by
  intro t
  match t with
  | [] => intro _; trivial
  | (x, c) :: r => intro hf; exact Nat.lt_of_lt_of_le hf h

theorem goodLine_key (ind : Nat) (k : String) (after : List Char)
    (hk : validPlainKey k = true) (hnl : '\n' ∉ after) :
    goodLine (ind, k.data ++ ':' :: after) := by
  obtain ⟨-, hkne, hkhead, hknl⟩ := validPlainKey_facts k hk
  refine ⟨?_, ?_, ?_⟩
  · intro he
    exact hkne (List.append_eq_nil.mp he).1
  · cases hd : k.data with
    | nil => exact absurd hd hkne
    | cons d ds =>
      have hind := hkhead d ds hd
      simp only [List.cons_append, List.head?_cons, ne_eq, Option.some.injEq]
      intro he
      subst he
      simp [plainIndicatorChar] at hind
  · intro hmem
    rcases List.mem_append.mp hmem with h | h
    · exact hknl h
    · rcases List.mem_cons.mp h with h | h
      · exact absurd h (by decide)
      · exact hnl h

theorem isTopScalarLine_keyline (k : String) (after : List Char)
    (hk : validPlainKey k = true)
    (hsh : after = [] ∨ ∃ tl, after = ' ' :: tl) :
    isTopScalarLine (k.data ++ ':' :: after) = false := by
  obtain ⟨-, hkne, hkhead, -⟩ := validPlainKey_facts k hk
  cases hd : k.data with
  | nil => exact absurd hd hkne
  | cons d ds =>
    have hind := hkhead d ds hd
    have h1 : ¬d = '"' := fun he => by subst he; simp [plainIndicatorChar] at hind
    have h2 : ¬d = '\'' := fun he => by subst he; simp [plainIndicatorChar] at hind
    have h3 : ¬d = '&' := fun he => by subst he; simp [plainIndicatorChar] at hind
    have h4 : ¬d = '*' := fun he => by subst he; simp [plainIndicatorChar] at hind
    have hbc : hasBadColon (d :: ds ++ ':' :: after) = true := by
      rcases hsh with h | ⟨tl, h⟩
      · subst h; exact hasBadColon_colon_end (d :: ds)
      · subst h; exact hasBadColon_colon_space (d :: ds) tl
    show (d = '"' || d = '\'' || d = '&' || d = '*' ||
      !hasBadColon (d :: ds ++ ':' :: after)) = false
    rw [hbc]
    simp [h1, h2, h3, h4]

mutual

theorem corrVal (v : YNode) (env : List (String × YamlValue)) (ind : Nat) (k : String)
    (anchors1 : List String) (lines : List (Nat × List Char))
    (hk : validPlainKey k = true)
    (hm : marshalVal (env.map Prod.fst) ind k.data v = .ok (anchors1, lines)) :
    ∃ env1 vv, resolveNode env v = .ok (env1, vv) ∧
      anchors1 = env1.map Prod.fst ∧
      1 ≤ lines.length ∧ goodLines lines ∧ (∀ l ∈ lines, ind ≤ l.1) ∧
      (∃ c0, lines.head? = some (ind, c0) ∧ isTopScalarLine c0 = false) ∧
      (∀ fuel rest, lines.length + rest.length ≤ fuel → firstBelow (ind + 1) rest →
        parseEntriesF (fuel + 1) env ind (lines ++ rest) =
          match parseEntriesF fuel env1 ind rest with
          | .error e => .error e
          | .ok (es, env2, rem) => .ok ((k, vv) :: es, env2, rem)) := by
  obtain ⟨hkcol, hkne, hkhead, hknl⟩ := validPlainKey_facts k hk
  cases v with
  | zero => exact absurd hm (by simp [marshalVal])
  | scalar anc s =>
    cases anc with
    | none =>
      rw [show marshalVal (env.map Prod.fst) ind k.data (.scalar none s) =
        .ok (env.map Prod.fst,
          [(ind, k.data ++ ':' :: ' ' :: yamlEncodeScalarChars s.data)]) from rfl] at hm
      simp only [Except.ok.injEq, Prod.mk.injEq] at hm
      obtain ⟨ha, hl⟩ := hm
      subst ha
      subst hl
      refine ⟨env, .scalar s, rfl, rfl, by simp, ?_, by simp, ⟨_, ⟨rfl, ?_⟩⟩, ?_⟩
      · intro l hl
        rw [List.mem_singleton] at hl
        subst hl
        exact goodLine_key ind k _ hk (by
          intro hmem
          rcases List.mem_cons.mp hmem with h | h
          · exact absurd h (by decide)
          · exact newline_not_mem_encode _ h)
      · exact isTopScalarLine_keyline k _ hk (Or.inr ⟨_, rfl⟩)
      · intro fuel rest hfuel hfb
        rw [List.cons_append, List.nil_append, parseEntriesF_cons,
          if_neg (Nat.lt_irrefl ind), if_pos rfl,
          splitKey_of_append k.data _ hkcol]
        dsimp only
        rw [classifyAfter_scalar _ (encode_ne_nil _)
          (fun d ds hd => ⟨(encode_head_not _ _ _ hd).1, (encode_head_not _ _ _ hd).2.1⟩)
          (encode_ne_braces _)]
        dsimp only
        rw [scalar_roundtrip]
        all_goals rfl
    | some a =>
      by_cases hva : validAnchorChars a.data = true
      · rw [show marshalVal (env.map Prod.fst) ind k.data (.scalar (some a) s) =
          (if validAnchorChars a.data then
            .ok (a :: env.map Prod.fst,
              [(ind, k.data ++ ':' :: ' ' :: '&' :: (a.data ++ ' ' :: yamlEncodeScalarChars s.data))])
          else .error "invalid anchor name") from rfl, if_pos hva] at hm
        simp only [Except.ok.injEq, Prod.mk.injEq] at hm
        obtain ⟨ha, hl⟩ := hm
        subst ha
        subst hl
        obtain ⟨hasp, hanl, hane, -⟩ := validAnchor_facts a.data hva
        refine ⟨(a, .scalar s) :: env, .scalar s, rfl, by simp, by simp, ?_, by simp,
          ⟨_, ⟨rfl, ?_⟩⟩, ?_⟩
        · intro l hl
          rw [List.mem_singleton] at hl
          subst hl
          refine goodLine_key ind k _ hk ?_
          intro hmem
          rcases List.mem_cons.mp hmem with h | h
          · exact absurd h (by decide)
          rcases List.mem_cons.mp h with h | h
          · exact absurd h (by decide)
          rcases List.mem_append.mp h with h | h
          · exact hanl h
          rcases List.mem_cons.mp h with h | h
          · exact absurd h (by decide)
          · exact newline_not_mem_encode _ h
        · exact isTopScalarLine_keyline k _ hk (Or.inr ⟨_, rfl⟩)
        · intro fuel rest hfuel hfb
          rw [List.cons_append, List.nil_append, parseEntriesF_cons,
            if_neg (Nat.lt_irrefl ind), if_pos rfl,
            splitKey_of_append k.data _ hkcol]
          dsimp only
          rw [classifyAfter_anchored_scalar a _ hasp (encode_ne_braces _)]
          dsimp only
          rw [scalar_roundtrip]
          all_goals rfl
      · rw [show marshalVal (env.map Prod.fst) ind k.data (.scalar (some a) s) =
          (if validAnchorChars a.data then
            .ok (a :: env.map Prod.fst,
              [(ind, k.data ++ ':' :: ' ' :: '&' :: (a.data ++ ' ' :: yamlEncodeScalarChars s.data))])
          else .error "invalid anchor name") from rfl, if_neg hva] at hm
        cases hm
  | mapping anc es =>
    cases anc with
    | none =>
      cases es with
      | nil =>
        rw [show marshalVal (env.map Prod.fst) ind k.data (.mapping none .nil) =
          .ok (env.map Prod.fst, [(ind, k.data ++ ':' :: ' ' :: ['{', '}'])]) from rfl] at hm
        simp only [Except.ok.injEq, Prod.mk.injEq] at hm
        obtain ⟨ha, hl⟩ := hm
        subst ha
        subst hl
        refine ⟨env, .mapping [], rfl, rfl, by simp, ?_, by simp, ⟨_, ⟨rfl, ?_⟩⟩, ?_⟩
        · intro l hl
          rw [List.mem_singleton] at hl
          subst hl
          exact goodLine_key ind k _ hk (by decide)
        · exact isTopScalarLine_keyline k _ hk (Or.inr ⟨_, rfl⟩)
        · intro fuel rest hfuel hfb
          rw [List.cons_append, List.nil_append, parseEntriesF_cons,
            if_neg (Nat.lt_irrefl ind), if_pos rfl,
            splitKey_of_append k.data _ hkcol]
          dsimp only
          rw [classifyAfter_empty]
          all_goals rfl
      | cons k1 v1 rest1 =>
        rw [show marshalVal (env.map Prod.fst) ind k.data (.mapping none (.cons k1 v1 rest1)) =
          (match marshalEntries (env.map Prod.fst) (ind + 4) (.cons k1 v1 rest1) with
          | .error e => .error e
          | .ok (anchors1, lines) =>
            .ok (anchors1, (ind, k.data ++ [':']) :: lines)) from rfl] at hm
        cases hme : marshalEntries (env.map Prod.fst) (ind + 4) (YEntries.cons k1 v1 rest1) with
        | error e => rw [hme] at hm; cases hm
        | ok pr =>
          obtain ⟨anchorsC, clines⟩ := pr
          rw [hme] at hm
          dsimp only at hm
          simp only [Except.ok.injEq, Prod.mk.injEq] at hm
          obtain ⟨ha, hl⟩ := hm
          subst ha
          subst hl
          obtain ⟨env2, ves, hres, hanch, hgoodC, hindC, -, hparseC⟩ :=
            corrEntries (.cons k1 v1 rest1) env (ind + 4) anchorsC clines hme
          refine ⟨env2, .mapping ves, ?_, hanch, by simp, ?_, ?_, ⟨_, ⟨rfl, ?_⟩⟩, ?_⟩
          · rw [show resolveNode env (.mapping none (.cons k1 v1 rest1)) =
              (match resolveEntries env (.cons k1 v1 rest1) with
              | .error e => .error e
              | .ok (env1, ves) => .ok (env1, .mapping ves)) from rfl, hres]
          · intro l hl
            rcases List.mem_cons.mp hl with h | h
            · subst h; exact goodLine_key ind k _ hk (by simp)
            · exact hgoodC l h
          · intro l hl
            rcases List.mem_cons.mp hl with h | h
            · subst h; simp
            · exact Nat.le_trans (by omega) (hindC l h)
          · exact isTopScalarLine_keyline k _ hk (Or.inl rfl)
          · intro fuel rest hfuel hfb
            rw [List.cons_append, parseEntriesF_cons,
              if_neg (Nat.lt_irrefl ind), if_pos rfl,
              splitKey_of_append k.data _ hkcol]
            dsimp only
            rw [classifyAfter_child]
            dsimp only
            rw [hparseC fuel rest (by simp at hfuel ⊢; omega)
              (firstBelow_mono (by omega) hfb)]
            all_goals rfl
    | some a =>
      by_cases hva : validAnchorChars a.data = true
      · cases es with
        | nil =>
          rw [show marshalVal (env.map Prod.fst) ind k.data (.mapping (some a) .nil) =
            (if validAnchorChars a.data then
              .ok (a :: env.map Prod.fst,
                [(ind, k.data ++ ':' :: ' ' :: '&' :: (a.data ++ ' ' :: ['{', '}']))])
            else .error "invalid anchor name") from rfl, if_pos hva] at hm
          simp only [Except.ok.injEq, Prod.mk.injEq] at hm
          obtain ⟨ha, hl⟩ := hm
          subst ha
          subst hl
          obtain ⟨hasp, hanl, hane, -⟩ := validAnchor_facts a.data hva
          refine ⟨(a, .mapping []) :: env, .mapping [], rfl, by simp, by simp, ?_, by simp,
            ⟨_, ⟨rfl, ?_⟩⟩, ?_⟩
          · intro l hl
            rw [List.mem_singleton] at hl
            subst hl
            refine goodLine_key ind k _ hk ?_
            intro hmem
            rcases List.mem_cons.mp hmem with h | h
            · exact absurd h (by decide)
            rcases List.mem_cons.mp h with h | h
            · exact absurd h (by decide)
            rcases List.mem_append.mp h with h | h
            · exact hanl h
            · rcases List.mem_cons.mp h with h | h
              · exact absurd h (by decide)
              · rcases List.mem_cons.mp h with h | h
                · exact absurd h (by decide)
                · rcases List.mem_cons.mp h with h | h
                  · exact absurd h (by decide)
                  · exact absurd h (List.not_mem_nil _)
          · exact isTopScalarLine_keyline k _ hk (Or.inr ⟨_, rfl⟩)
          · intro fuel rest hfuel hfb
            rw [List.cons_append, List.nil_append, parseEntriesF_cons,
              if_neg (Nat.lt_irrefl ind), if_pos rfl,
              splitKey_of_append k.data _ hkcol]
            dsimp only
            rw [classifyAfter_anchored_empty a hasp]
            all_goals rfl
        | cons k1 v1 rest1 =>
          rw [show marshalVal (env.map Prod.fst) ind k.data
              (.mapping (some a) (.cons k1 v1 rest1)) =
            (if validAnchorChars a.data then
              match marshalEntries (env.map Prod.fst) (ind + 4) (.cons k1 v1 rest1) with
              | .error e => .error e
              | .ok (anchors1, lines) =>
                .ok (a :: anchors1, (ind, k.data ++ ':' :: ' ' :: '&' :: a.data) :: lines)
            else .error "invalid anchor name") from rfl, if_pos hva] at hm
          cases hme : marshalEntries (env.map Prod.fst) (ind + 4) (YEntries.cons k1 v1 rest1) with
          | error e => rw [hme] at hm; cases hm
          | ok pr =>
            obtain ⟨anchorsC, clines⟩ := pr
            rw [hme] at hm
            dsimp only at hm
            simp only [Except.ok.injEq, Prod.mk.injEq] at hm
            obtain ⟨ha, hl⟩ := hm
            subst ha
            subst hl
            obtain ⟨hasp, hanl, hane, -⟩ := validAnchor_facts a.data hva
            obtain ⟨env2, ves, hres, hanch, hgoodC, hindC, -, hparseC⟩ :=
              corrEntries (.cons k1 v1 rest1) env (ind + 4) anchorsC clines hme
            refine ⟨(a, .mapping ves) :: env2, .mapping ves, ?_, by simp [hanch], by simp,
              ?_, ?_, ⟨_, ⟨rfl, ?_⟩⟩, ?_⟩
            · rw [show resolveNode env (.mapping (some a) (.cons k1 v1 rest1)) =
                (match resolveEntries env (.cons k1 v1 rest1) with
                | .error e => .error e
                | .ok (env1, ves) =>
                  .ok ((a, YamlValue.mapping ves) :: env1, .mapping ves)) from rfl, hres]
            · intro l hl
              rcases List.mem_cons.mp hl with h | h
              · subst h
                refine goodLine_key ind k _ hk ?_
                intro hmem
                rcases List.mem_cons.mp hmem with h | h
                · exact absurd h (by decide)
                rcases List.mem_cons.mp h with h | h
                · exact absurd h (by decide)
                · exact hanl h
              · exact hgoodC l h
            · intro l hl
              rcases List.mem_cons.mp hl with h | h
              · subst h; simp
              · exact Nat.le_trans (by omega) (hindC l h)
            · exact isTopScalarLine_keyline k _ hk (Or.inr ⟨_, rfl⟩)
            · intro fuel rest hfuel hfb
              rw [List.cons_append, parseEntriesF_cons,
                if_neg (Nat.lt_irrefl ind), if_pos rfl,
                splitKey_of_append k.data _ hkcol]
              dsimp only
              rw [classifyAfter_anchored_child a hasp]
              dsimp only
              rw [hparseC fuel rest (by simp at hfuel ⊢; omega)
                (firstBelow_mono (by omega) hfb)]
              all_goals rfl
      · cases es with
        | nil =>
          rw [show marshalVal (env.map Prod.fst) ind k.data (.mapping (some a) .nil) =
            (if validAnchorChars a.data then
              .ok (a :: env.map Prod.fst,
                [(ind, k.data ++ ':' :: ' ' :: '&' :: (a.data ++ ' ' :: ['{', '}']))])
            else .error "invalid anchor name") from rfl, if_neg hva] at hm
          cases hm
        | cons k1 v1 rest1 =>
          rw [show marshalVal (env.map Prod.fst) ind k.data
              (.mapping (some a) (.cons k1 v1 rest1)) =
            (if validAnchorChars a.data then
              match marshalEntries (env.map Prod.fst) (ind + 4) (.cons k1 v1 rest1) with
              | .error e => .error e
              | .ok (anchors1, lines) =>
                .ok (a :: anchors1, (ind, k.data ++ ':' :: ' ' :: '&' :: a.data) :: lines)
            else .error "invalid anchor name") from rfl, if_neg hva] at hm
          cases hm
  | aliasNode n =>
    by_cases hok : ((env.map Prod.fst).contains n && validAnchorChars n.data) = true
    · rw [show marshalVal (env.map Prod.fst) ind k.data (.aliasNode n) =
        (if (env.map Prod.fst).contains n && validAnchorChars n.data then
          .ok (env.map Prod.fst, [(ind, k.data ++ ':' :: ' ' :: '*' :: n.data)])
        else .error "unknown anchor") from rfl, if_pos hok] at hm
      simp only [Except.ok.injEq, Prod.mk.injEq] at hm
      obtain ⟨ha, hl⟩ := hm
      subst ha
      subst hl
      have hok2 := hok
      rw [Bool.and_eq_true] at hok2
      obtain ⟨hcont, hvn⟩ := hok2
      obtain ⟨vv, hlk⟩ := contains_lookup env n hcont
      obtain ⟨-, hnnl, -, -⟩ := validAnchor_facts n.data hvn
      refine ⟨env, vv, ?_, rfl, by simp, ?_, by simp, ⟨_, ⟨rfl, ?_⟩⟩, ?_⟩
      · rw [show resolveNode env (.aliasNode n) =
          (match env.lookup n with
          | some v => .ok (env, v)
          | none => .error "unknown anchor") from rfl, hlk]
      · intro l hl
        rw [List.mem_singleton] at hl
        subst hl
        refine goodLine_key ind k _ hk ?_
        intro hmem
        rcases List.mem_cons.mp hmem with h | h
        · exact absurd h (by decide)
        rcases List.mem_cons.mp h with h | h
        · exact absurd h (by decide)
        · exact hnnl h
      · exact isTopScalarLine_keyline k _ hk (Or.inr ⟨_, rfl⟩)
      · intro fuel rest hfuel hfb
        rw [List.cons_append, List.nil_append, parseEntriesF_cons,
          if_neg (Nat.lt_irrefl ind), if_pos rfl,
          splitKey_of_append k.data _ hkcol]
        dsimp only
        rw [classifyAfter_alias n]
        dsimp only
        rw [hlk]
        all_goals rfl
    · rw [show marshalVal (env.map Prod.fst) ind k.data (.aliasNode n) =
        (if (env.map Prod.fst).contains n && validAnchorChars n.data then
          .ok (env.map Prod.fst, [(ind, k.data ++ ':' :: ' ' :: '*' :: n.data)])
        else .error "unknown anchor") from rfl, if_neg hok] at hm
      cases hm
termination_by sizeOf v

theorem corrEntries (es : YEntries) (env : List (String × YamlValue)) (ind : Nat)
    (anchors2 : List String) (lines : List (Nat × List Char))
    (hm : marshalEntries (env.map Prod.fst) ind es = .ok (anchors2, lines)) :
    ∃ env2 ves, resolveEntries env es = .ok (env2, ves) ∧
      anchors2 = env2.map Prod.fst ∧
      goodLines lines ∧ (∀ l ∈ lines, ind ≤ l.1) ∧
      (lines = [] ∨ ∃ c0 r0, lines = (ind, c0) :: r0 ∧ isTopScalarLine c0 = false) ∧
      (∀ fuel tail, lines.length + tail.length < fuel → firstBelow ind tail →
        parseEntriesF fuel env ind (lines ++ tail) = .ok (ves, env2, tail)) := by
  cases es with
  | nil =>
    rw [show marshalEntries (env.map Prod.fst) ind .nil =
      .ok (env.map Prod.fst, []) from rfl] at hm
    simp only [Except.ok.injEq, Prod.mk.injEq] at hm
    obtain ⟨ha, hl⟩ := hm
    subst ha
    subst hl
    refine ⟨env, [], rfl, rfl, by intro l hl; simp at hl, by intro l hl; simp at hl,
      Or.inl rfl, ?_⟩
    intro fuel tail hfuel hfb
    rw [List.nil_append]
    match fuel, hfuel with
    | f + 1, _ =>
      match tail, hfb with
      | [], _ => exact parseEntriesF_nil f env ind
      | (i, c) :: r, hfb =>
        have hlt : i < ind := hfb
        rw [parseEntriesF_cons, if_pos hlt]
  | cons k1 v1 rest1 =>
    by_cases hvk : validPlainKey k1 = true
    · rw [show marshalEntries (env.map Prod.fst) ind (.cons k1 v1 rest1) =
        (if validPlainKey k1 then
          match marshalVal (env.map Prod.fst) ind k1.data v1 with
          | .error e => .error e
          | .ok (anchors1, lines1) =>
            match marshalEntries anchors1 ind rest1 with
            | .error e => .error e
            | .ok (anchors2, lines2) => .ok (anchors2, lines1 ++ lines2)
        else .error "unsupported key") from rfl, if_pos hvk] at hm
      cases hm1 : marshalVal (env.map Prod.fst) ind k1.data v1 with
      | error e => rw [hm1] at hm; cases hm
      | ok pr1 =>
        obtain ⟨anchorsA, lines1⟩ := pr1
        rw [hm1] at hm
        dsimp only at hm
        obtain ⟨env1, vv, hres1, hanch1, hlen1, hgood1, hind1, hhead1, hparse1⟩ :=
          corrVal v1 env ind k1 anchorsA lines1 hvk hm1
        rw [hanch1] at hm
        cases hm2 : marshalEntries (env1.map Prod.fst) ind rest1 with
        | error e => rw [hm2] at hm; cases hm
        | ok pr2 =>
          obtain ⟨anchorsB, lines2⟩ := pr2
          rw [hm2] at hm
          dsimp only at hm
          simp only [Except.ok.injEq, Prod.mk.injEq] at hm
          obtain ⟨ha, hl⟩ := hm
          subst ha
          subst hl
          obtain ⟨env2, ves2, hres2, hanch2, hgood2, hind2, hhead2, hparse2⟩ :=
            corrEntries rest1 env1 ind anchorsB lines2 hm2
          obtain ⟨c0, hc0, hcs0⟩ := hhead1
          refine ⟨env2, (k1, vv) :: ves2, ?_, hanch2, ?_, ?_, ?_, ?_⟩
          · rw [show resolveEntries env (.cons k1 v1 rest1) =
              (match resolveNode env v1 with
              | .error e => .error e
              | .ok (env1, vv) =>
                match resolveEntries env1 rest1 with
                | .error e => .error e
                | .ok (env2, ves) => .ok (env2, (k1, vv) :: ves)) from rfl, hres1]
            dsimp only
            rw [hres2]
          · intro l hl
            rcases List.mem_append.mp hl with h | h
            · exact hgood1 l h
            · exact hgood2 l h
          · intro l hl
            rcases List.mem_append.mp hl with h | h
            · exact hind1 l h
            · exact hind2 l h
          · cases lines1 with
            | nil => simp at hc0
            | cons l0 r0 =>
              rw [List.head?_cons, Option.some.injEq] at hc0
              subst hc0
              exact Or.inr ⟨c0, r0 ++ lines2, by simp, hcs0⟩
          · intro fuel tail hfuel hfb
            match fuel, hfuel with
            | f + 1, hfuel =>
              rw [List.append_assoc]
              have hfb2 : firstBelow (ind + 1) (lines2 ++ tail) := by
                rcases hhead2 with h | ⟨c1, r1, h, -⟩
                · subst h
                  rw [List.nil_append]
                  exact firstBelow_mono (by omega) hfb
                · rw [h]
                  show ind < ind + 1
                  omega
              rw [hparse1 f (lines2 ++ tail)
                (by simp at hfuel ⊢; omega) hfb2]
              rw [hparse2 f tail (by simp at hfuel ⊢; omega) hfb]
    · rw [show marshalEntries (env.map Prod.fst) ind (.cons k1 v1 rest1) =
        (if validPlainKey k1 then
          match marshalVal (env.map Prod.fst) ind k1.data v1 with
          | .error e => .error e
          | .ok (anchors1, lines1) =>
            match marshalEntries anchors1 ind rest1 with
            | .error e => .error e
            | .ok (anchors2, lines2) => .ok (anchors2, lines1 ++ lines2)
        else .error "unsupported key") from rfl, if_neg hvk] at hm
      cases hm
termination_by sizeOf es

end

/-!
Top-level node marshal/parse correspondence.
-/

theorem encode_exists_head (cs : List Char) :
    ∃ d ds, yamlEncodeScalarChars cs = d :: ds := by
  cases h : yamlEncodeScalarChars cs with
  | nil => exact absurd h (encode_ne_nil _)
  | cons d ds => exact ⟨d, ds, rfl⟩

theorem parseTopToken_encode (s : String) :
    parseTopToken (yamlEncodeScalarChars s.data) = .ok (.scalar s) := by
  rw [parseTopToken.eq_def]
  split
  · rename_i tl heq
    obtain ⟨d, ds, hds⟩ := encode_exists_head s.data
    rw [hds] at heq
    injection heq with h1 _
    exact absurd h1 (encode_head_not _ _ _ hds).1
  · rename_i tl heq
    obtain ⟨d, ds, hds⟩ := encode_exists_head s.data
    rw [hds] at heq
    injection heq with h1 _
    exact absurd h1 (encode_head_not _ _ _ hds).2.1
  · rw [if_neg (encode_ne_braces s.data), scalar_roundtrip s.data]

theorem parseTopToken_anchored (a s : String) (hsp : ' ' ∉ a.data) :
    parseTopToken ('&' :: (a.data ++ ' ' :: yamlEncodeScalarChars s.data)) = .ok (.scalar s) := by
  rw [show parseTopToken ('&' :: (a.data ++ ' ' :: yamlEncodeScalarChars s.data)) =
    (match splitAtSpace (a.data ++ ' ' :: yamlEncodeScalarChars s.data) with
    | (_, none) => .error "malformed document"
    | (_, some tok) =>
      if tok = ['{', '}'] then .ok (.mapping [])
      else
        match yamlDecodeScalarChars tok with
        | some v => .ok (.scalar ⟨v⟩)
        | none => .error "malformed scalar") from rfl]
  rw [splitAtSpace_append a.data _ hsp]
  dsimp only
  rw [if_neg (encode_ne_braces s.data), scalar_roundtrip s.data]

theorem isTopScalarLine_encode (cs : List Char) :
    isTopScalarLine (yamlEncodeScalarChars cs) = true := by
  unfold yamlEncodeScalarChars
  by_cases hdq : needsDQ cs = true
  · rw [if_pos hdq]; rfl
  by_cases hsq : needsSQ cs = true
  · rw [if_neg hdq, if_pos hsq]; rfl
  · rw [if_neg hdq, if_neg hsq]
    have hsq' : needsSQ cs = false := by simpa using hsq
    have hbc := needsSQ_false_no_badColon hsq'
    match cs, hsq' with
    | c :: rest, hsq' =>
      show (c = '"' || c = '\'' || c = '&' || c = '*' || !hasBadColon (c :: rest)) = true
      rw [hbc]
      simp

theorem marshalTop_correct (n : YNode) (lines : List (Nat × List Char))
    (hm : marshalTopLines n = .ok lines) :
    ∃ v, resolveTopNode n = .ok v ∧ parseTopLines lines = .ok v ∧ goodLines lines := by
  cases n with
  | zero => exact absurd hm (by simp [marshalTopLines])
  | scalar anc s =>
    cases anc with
    | none =>
      rw [show marshalTopLines (.scalar none s) =
        .ok [(0, yamlEncodeScalarChars s.data)] from rfl] at hm
      injection hm with hm
      subst hm
      refine ⟨.scalar s, rfl, ?_, ?_⟩
      · rw [show parseTopLines [(0, yamlEncodeScalarChars s.data)] =
          (if isTopScalarLine (yamlEncodeScalarChars s.data) then
            parseTopToken (yamlEncodeScalarChars s.data)
          else parseTopMapping [(0, yamlEncodeScalarChars s.data)]) from rfl]
        rw [isTopScalarLine_encode, if_pos rfl]
        exact parseTopToken_encode s
      · intro l hl
        rw [List.mem_singleton] at hl
        subst hl
        obtain ⟨d, ds, hds⟩ := encode_exists_head s.data
        refine ⟨encode_ne_nil _, ?_, newline_not_mem_encode _⟩
        rw [hds, List.head?_cons, ne_eq, Option.some.injEq]
        intro he
        exact (encode_head_not _ _ _ hds).2.2.2 he
    | some a =>
      by_cases hva : validAnchorChars a.data = true
      · rw [show marshalTopLines (.scalar (some a) s) =
          (if validAnchorChars a.data then
            .ok [(0, '&' :: (a.data ++ ' ' :: yamlEncodeScalarChars s.data))]
          else .error "invalid anchor name") from rfl, if_pos hva] at hm
        injection hm with hm
        subst hm
        obtain ⟨hasp, hanl, -, -⟩ := validAnchor_facts a.data hva
        refine ⟨.scalar s, rfl, ?_, ?_⟩
        · rw [show parseTopLines [(0, '&' :: (a.data ++ ' ' :: yamlEncodeScalarChars s.data))] =
            (if isTopScalarLine ('&' :: (a.data ++ ' ' :: yamlEncodeScalarChars s.data)) then
              parseTopToken ('&' :: (a.data ++ ' ' :: yamlEncodeScalarChars s.data))
            else parseTopMapping
              [(0, '&' :: (a.data ++ ' ' :: yamlEncodeScalarChars s.data))]) from rfl]
          rw [show isTopScalarLine ('&' :: (a.data ++ ' ' :: yamlEncodeScalarChars s.data)) =
            true from rfl, if_pos rfl]
          exact parseTopToken_anchored a s hasp
        · intro l hl
          rw [List.mem_singleton] at hl
          subst hl
          refine ⟨by simp, by simp +decide, ?_⟩
          intro hmem
          rcases List.mem_cons.mp hmem with h | h
          · exact absurd h (by decide)
          rcases List.mem_append.mp h with h | h
          · exact hanl h
          rcases List.mem_cons.mp h with h | h
          · exact absurd h (by decide)
          · exact newline_not_mem_encode _ h
      · rw [show marshalTopLines (.scalar (some a) s) =
          (if validAnchorChars a.data then
            .ok [(0, '&' :: (a.data ++ ' ' :: yamlEncodeScalarChars s.data))]
          else .error "invalid anchor name") from rfl, if_neg hva] at hm
        cases hm
  | mapping anc es =>
    cases anc with
    | some a =>
      exact absurd hm (by simp [marshalTopLines])
    | none =>
      cases es with
      | nil =>
        rw [show marshalTopLines (.mapping none .nil) = .ok [(0, ['{', '}'])] from rfl] at hm
        injection hm with hm
        subst hm
        refine ⟨.mapping [], rfl, rfl, ?_⟩
        intro l hl
        rw [List.mem_singleton] at hl
        subst hl
        exact ⟨by simp, by simp, by decide⟩
      | cons k1 v1 rest1 =>
        rw [show marshalTopLines (.mapping none (.cons k1 v1 rest1)) =
          (match marshalEntries [] 0 (.cons k1 v1 rest1) with
          | .error e => .error e
          | .ok (_, lines) => .ok lines) from rfl] at hm
        cases hme : marshalEntries [] 0 (YEntries.cons k1 v1 rest1) with
        | error e => rw [hme] at hm; cases hm
        | ok pr =>
          obtain ⟨anchorsT, tlines⟩ := pr
          rw [hme] at hm
          dsimp only at hm
          injection hm with hm
          subst hm
          obtain ⟨env2, ves, hres, -, hgood, -, hhead, hparse⟩ :=
            corrEntries (.cons k1 v1 rest1) [] 0 anchorsT tlines hme
          refine ⟨.mapping ves, ?_, ?_, hgood⟩
          · unfold resolveTopNode
            rw [show resolveNode [] (.mapping none (.cons k1 v1 rest1)) =
              (match resolveEntries [] (.cons k1 v1 rest1) with
              | .error e => .error e
              | .ok (env1, ves) => .ok (env1, YamlValue.mapping ves)) from rfl, hres]
          · rcases hhead with h | ⟨c0, r0, h, hcs⟩
            · subst h
              have h1 := hparse 1 [] (by simp) trivial
              rw [List.nil_append] at h1
              have h2 : parseEntriesF 1 [] 0 [] = .ok ([], [], []) := rfl
              rw [h2] at h1
              simp only [Except.ok.injEq, Prod.mk.injEq] at h1
              obtain ⟨hv, -⟩ := h1
              rw [← hv]
              rfl
            · subst h
              have hp := hparse ((((0, c0) :: r0)).length + 1) [] (by simp) trivial
              rw [List.append_nil] at hp
              cases r0 with
              | nil =>
                rw [show parseTopLines [(0, c0)] =
                  (if isTopScalarLine c0 then parseTopToken c0
                  else parseTopMapping [(0, c0)]) from rfl, hcs]
                simp only [Bool.false_eq_true, if_false]
                unfold parseTopMapping
                rw [hp]
              | cons l1 r1 =>
                rw [show parseTopLines ((0, c0) :: l1 :: r1) =
                  parseTopMapping ((0, c0) :: l1 :: r1) from rfl]
                unfold parseTopMapping
                rw [hp]
  | aliasNode m =>
    exact absurd hm (by simp [marshalTopLines])

/-!
Rendering lines to text and splitting the text back are inverse on
well-formed lines.
-/

theorem splitLinesAcc_step (c rest acc : List Char) (h : '\n' ∉ c) :
    splitLinesAcc (c ++ '\n' :: rest) acc =
      Option.map (fun ls => (acc.reverse ++ c) :: ls) (splitLinesAcc rest []) := by
  induction c generalizing acc with
  | nil =>
    simp [splitLinesAcc]
  | cons d ds ih =>
    have hd : d ≠ '\n' := fun he => h (he ▸ List.mem_cons_self d ds)
    have hds : '\n' ∉ ds := fun hm => h (List.mem_cons_of_mem d hm)
    show splitLinesAcc (d :: (ds ++ '\n' :: rest)) acc = _
    rw [show splitLinesAcc (d :: (ds ++ '\n' :: rest)) acc =
      (if d = '\n' then (fun ls => acc.reverse :: ls) <$> splitLinesAcc (ds ++ '\n' :: rest) []
      else splitLinesAcc (ds ++ '\n' :: rest) (d :: acc)) from rfl, if_neg hd, ih (d :: acc) hds]
    simp

theorem countSpaces_replicate (i : Nat) (c : List Char)
    (hne : c ≠ []) (hhd : c.head? ≠ some ' ') :
    countSpaces (List.replicate i ' ' ++ c) = i := by
  induction i with
  | zero =>
    match c, hne with
    | d :: r, _ =>
      have hd : d ≠ ' ' := by
        intro he
        exact hhd (by rw [List.head?_cons, he])
      show countSpaces (d :: r) = 0
      unfold countSpaces
      rw [if_neg hd]
  | succ k ih =>
    show countSpaces (' ' :: (List.replicate k ' ' ++ c)) = k + 1
    unfold countSpaces
    rw [if_pos rfl, ih]

theorem toIndentLine_good (i : Nat) (c : List Char) (h : goodLine (i, c)) :
    toIndentLine (spacesChars i ++ c) = some (i, c) := by
  obtain ⟨hne, hhd, -⟩ := h
  unfold toIndentLine spacesChars
  dsimp only
  rw [countSpaces_replicate i c hne hhd,
    show List.drop i (List.replicate i ' ' ++ c) = c from by
      have := List.drop_left (List.replicate i ' ') c
      rwa [List.length_replicate] at this]
  simp only [List.isEmpty_eq_true]
  rw [if_neg hne]

theorem splitLines_render (lines : List (Nat × List Char)) (h : goodLines lines) :
    splitLinesChars (renderLinesChars lines) = some lines := by
  induction lines with
  | nil => rfl
  | cons l rest ih =>
    obtain ⟨i, c⟩ := l
    have hl := h (i, c) (List.mem_cons_self _ _)
    obtain ⟨hne, hhd, hnl⟩ := hl
    have hrest : goodLines rest := fun x hx => h x (List.mem_cons_of_mem _ hx)
    have hnl2 : '\n' ∉ spacesChars i ++ c := by
      intro hm
      rcases List.mem_append.mp hm with hm | hm
      · have := List.eq_of_mem_replicate hm
        exact absurd this (by decide)
      · exact hnl hm
    have hstep := splitLinesAcc_step (spacesChars i ++ c) (renderLinesChars rest) [] hnl2
    rw [List.append_assoc] at hstep
    have hih := ih hrest
    unfold splitLinesChars at hih ⊢
    rw [show renderLinesChars ((i, c) :: rest) =
      spacesChars i ++ (c ++ '\n' :: renderLinesChars rest) from rfl, hstep]
    cases hsp : splitLinesAcc (renderLinesChars rest) [] with
    | none => rw [hsp] at hih; cases hih
    | some ls =>
      rw [hsp] at hih
      dsimp only [Option.map, Option.bind]
      rw [show (List.reverse [] ++ (spacesChars i ++ c)) = spacesChars i ++ c from by simp]
      unfold toIndentLines
      rw [toIndentLine_good i c ⟨hne, hhd, hnl⟩]
      have hih' : toIndentLines ls = some rest := hih
      rw [hih']

theorem yamlMarshalNode_correct (n : YNode) (t : String)
    (hm : yamlMarshalNode n = .ok t) :
    ∃ v, resolveTopNode n = .ok v ∧ yamlParseTop t = .ok v := by
  unfold yamlMarshalNode at hm
  cases hml : marshalTopLines n with
  | error e => rw [hml] at hm; cases hm
  | ok lines =>
    rw [hml] at hm
    dsimp only at hm
    injection hm with hm
    subst hm
    obtain ⟨v, hres, hpar, hgood⟩ := marshalTop_correct n lines hml
    refine ⟨v, hres, ?_⟩
    unfold yamlParseTop
    rw [show (⟨renderLinesChars lines⟩ : String).data = renderLinesChars lines from rfl,
      splitLines_render lines hgood]
    exact hpar

/-- C5: for every modern nested config (non-URI input that unmarshals with
no provider error and a non-zero transport), the canonical transport text
is the re-serialization of exactly the top-level `transport` subtree
(`yaml.Marshal` applied to `req.Transport` alone, so no other top-level key
of the parent document can appear), and that text re-parses to the
alias-resolved value of the subtree: in particular, any node tree with the
same resolved value — such as the tree with every aliased subtree written
out in full at each use site — marshals to text that re-parses to that same
value. -/
theorem C5_modern_transport_serialization (co : Collaborators) (input : String)
    (req : parseTunnelConfigRequest) (text : String)
    (hss : goHasPrefix (normalizeInput input) "ss://" = false)
    (hreq : co.unmarshalRequest (normalizeInput input) = .ok req)
    (herr : req.Error = none) (hz : req.Transport.isZero = false)
    (hm : yamlMarshalNode req.Transport = .ok text) :
    doParseTunnelConfig co input = finishWithClient co text ∧
    canonicalTransportText co input = some text ∧
    ∃ v, resolveTopNode req.Transport = .ok v ∧ yamlParseTop text = .ok v ∧
      ∀ n t', resolveTopNode n = .ok v → yamlMarshalNode n = .ok t' →
        yamlParseTop t' = .ok v := by
  refine ⟨doParse_node_ok co input req text hss hreq herr hz hm, ?_, ?_⟩
  · simp [canonicalTransportText, hss, hreq, herr, hz, hm]
  · obtain ⟨v, hres, hpar⟩ := yamlMarshalNode_correct req.Transport text hm
    refine ⟨v, hres, hpar, ?_⟩
    intro m t' hres' hm'
    obtain ⟨v', hres2, hpar2⟩ := yamlMarshalNode_correct m t' hm'
    rw [hres'] at hres2
    injection hres2 with hv
    rw [← hv] at hpar2
    exact hpar2

set_option maxRecDepth 10000 in
theorem C5_witness :
    doParseTunnelConfig
        (constCollaborators (.ok { Transport := sharedAliasTransport, Error := none })
          (.error "unused") (.ok ⟨"example.com:80", "example.com:80"⟩))
        "transport with alias" =
      finishWithClient
        (constCollaborators (.ok { Transport := sharedAliasTransport, Error := none })
          (.error "unused") (.ok ⟨"example.com:80", "example.com:80"⟩))
        sharedAliasText ∧
    canonicalTransportText
        (constCollaborators (.ok { Transport := sharedAliasTransport, Error := none })
          (.error "unused") (.ok ⟨"example.com:80", "example.com:80"⟩))
        "transport with alias" = some sharedAliasText ∧
    ∃ v, resolveTopNode sharedAliasTransport = .ok v ∧
      yamlParseTop sharedAliasText = .ok v ∧
      ∀ n t', resolveTopNode n = .ok v → yamlMarshalNode n = .ok t' →
        yamlParseTop t' = .ok v :=
  C5_modern_transport_serialization
    (constCollaborators (.ok { Transport := sharedAliasTransport, Error := none })
      (.error "unused") (.ok ⟨"example.com:80", "example.com:80"⟩))
    "transport with alias"
    { Transport := sharedAliasTransport, Error := none } sharedAliasText
    (by decide) rfl rfl rfl rfl

theorem C8_amended_witness :
    (doParseTunnelConfig
        (constCollaborators (.error "boom") (.error "unused") (.ok ⟨"", ""⟩)) "a").error =
      some { code := .invalidConfig, message := "failed to parse: boom", details := none } ∧
    (ErrorCode.invalidConfig.str ≠ "" ∧ ("failed to parse: boom" : String) ≠ "") :=
  ⟨rfl, by
    have h := C8_amended_nonempty_error_fields
      (constCollaborators (.error "boom") (.error "unused") (.ok ⟨"", ""⟩)) "a"
      (fun req pe hreq _ => Except.noConfusion hreq)
      (fun t pe hc => Except.noConfusion hc)
      { code := .invalidConfig, message := "failed to parse: boom", details := none } rfl
    exact h⟩

end OutlineParse
